import Mathlib

/-!
Verification development for the "Староста года" contest bot (src/main.py).

The development shallowly embeds the review-workflow engine of the bot:
the task catalog, the submission table with its lifecycle states, the
round-robin curator scheduler (`get_next_curator`), the submission
eligibility gates (`on_task_selected`, `on_send_answer`), the decision
processor (`curator_accept`, `curator_reject`, `handle_curator_reject_reason`),
the review-queue dispatcher loop (`send_next_submission_to_curator`), and a
small-step event machine for one participant's submission paths (direct,
photo_text, photo_multi album with its delayed finalize tasks, and the
photo_video `/done` flow).

Database rows become Lean structures, SQL queries become list operations on
those structures, and each aiogram handler becomes a pure state-transformer.
Python exceptions that abort a handler before any mutation are modelled as
the identity step; exceptions after a committed mutation keep the mutation.
-/

namespace SG

/-- Submission lifecycle states, the `status` column of `submissions`
(main.py:270; values written at main.py:1051, 1523, 1532, 1601). -/
inductive Status
  | pending
  | accepted
  | rejected
  | duplicate
deriving DecidableEq, Repr

/-- One entry of the static task catalog `TASKS` (main.py:80-95). -/
structure Task where
  id : Nat
  type : String
  points : Int
deriving DecidableEq, Repr

/-- The static task catalog (main.py:80-95).  Titles are irrelevant to the
claims and are omitted; ids, content types and point values are verbatim. -/
def TASKS : List Task :=
  [ ⟨1, "photo_text", 1⟩
  , ⟨2, "text", 1⟩
  , ⟨3, "text", 1⟩
  , ⟨4, "text", 1⟩
  , ⟨5, "photo", 2⟩
  , ⟨6, "photo", 2⟩
  , ⟨7, "photo_multi", 2⟩
  , ⟨8, "photo", 2⟩
  , ⟨9, "photo", 3⟩
  , ⟨10, "video", 3⟩
  , ⟨11, "video", 3⟩
  , ⟨12, "video", 3⟩
  , ⟨13, "video", 3⟩
  , ⟨14, "photo_video", 10⟩ ]

/-- Lookup of `task_by_id` (main.py:348-352).  The Python function raises
`ValueError` when the id is absent; the `none` result stands for that raise. -/
def task_by_id? (tid : Nat) : Option Task :=
  TASKS.find? (fun t => t.id == tid)

/-- Row of the `curators` table (main.py:247-251). -/
structure Curator where
  idx : Nat
  fio : String
  telegram_id : Nat
deriving DecidableEq, Repr

/-- Row of the `users` table (main.py:258-264).  `curator_idx` is nullable. -/
structure User where
  tg_id : Nat
  fio : String
  acad_group : String
  curator_idx : Option Nat
  points : Int
deriving DecidableEq, Repr

/-- Row of the `submissions` table (main.py:266-276).  `id` is the
AUTOINCREMENT primary key; `created_at` and `updated_at` are modelled as
naturals (the ISO strings of the source compare the same way for a
monotone clock). -/
structure Sub where
  id : Nat
  user_id : Nat
  task_id : Nat
  status : Status
  content_type : String
  content : String
  curator_comment : Option String
  created_at : Nat
  updated_at : Nat
deriving DecidableEq, Repr

/-- The persistent state of the bot: the four relations of init_db
(main.py:244-277).  `curators` is kept in ascending `idx` order (the order
every query reads it back in, `ORDER BY idx`); `next_curator_idx` is the
`meta` row keyed `next_curator_idx`, absent when the key was never written;
`next_sub_id` is the AUTOINCREMENT counter of `submissions`. -/
structure DB where
  curators : List Curator
  users : List User
  subs : List Sub
  next_curator_idx : Option Nat
  next_sub_id : Nat
deriving DecidableEq, Repr

/-- Count of a user's accepted submissions, `user_has_accepted_count`
(main.py:355-359). -/
def user_has_accepted_count (db : DB) (uid : Nat) : Nat :=
  db.subs.countP (fun s => s.user_id == uid && s.status == Status.accepted)

/-- Predicate of `submission_pending_for_task` (main.py:362-367). -/
def submission_pending_for_task (db : DB) (uid tid : Nat) : Bool :=
  db.subs.any (fun s => s.user_id == uid && s.task_id == tid && s.status == Status.pending)

/-- Predicate of `submission_accepted_for_task` (main.py:370-375), also the
re-check query of `curator_accept` (main.py:1516-1520) and of the dispatcher
(main.py:1373-1377). -/
def submission_accepted_for_task (db : DB) (uid tid : Nat) : Bool :=
  db.subs.any (fun s => s.user_id == uid && s.task_id == tid && s.status == Status.accepted)

/-- Round-robin curator selection `get_next_curator` (main.py:316-344).
Reads the `next_curator_idx` meta row (absent row: return `None` at
main.py:319-321 before touching anything else); reads the curator list in
`idx` order (empty: return `None`, main.py:325); picks the row whose `idx`
equals the cursor, falling back to the first row (main.py:328-335); writes
the cursor to the `idx` at the next position, wrapping (main.py:337-343). -/
def get_next_curator (db : DB) : Option Curator × DB :=
  match db.next_curator_idx with
  | none => (none, db)
  | some next_idx =>
    match db.curators with
    | [] => (none, db)
    | c0 :: rest =>
      let all_cur := c0 :: rest
      let chosen :=
        match all_cur.find? (fun r => r.idx == next_idx) with
        | some r => r
        | none => c0
      let idxs := all_cur.map (fun r => r.idx)
      let pos := idxs.indexOf chosen.idx
      let new_next := idxs.getD ((pos + 1) % idxs.length) 0
      (some chosen, { db with next_curator_idx := some new_next })

/-- Registration step of `process_group` (main.py:850-873): draw a curator
from the scheduler and insert the user row with that curator's `idx` (or
NULL when the scheduler returned `None`). -/
def process_group (db : DB) (tg_id : Nat) (fio acad_group : String) : DB :=
  let (curator, db1) := get_next_curator db
  { db1 with
    users := db1.users ++ [⟨tg_id, fio, acad_group, curator.map (fun c => c.idx), 0⟩] }

/-- Registration of a batch of participants, one `process_group` each. -/
def process_group_many (db : DB) (ps : List (Nat × String × String)) : DB :=
  ps.foldl (fun d p => process_group d p.1 p.2.1 p.2.2) db

/-- Outcomes of the two eligibility gates and of the decision processor,
one constructor per user-facing rejection message of the source. -/
inductive GateResult
  | taskLocked
  | alreadyAccepted
  | reviewInProgress
  | admitted
deriving DecidableEq, Repr

/-- Eligibility gate of `on_task_selected` (main.py:916-933), in the
source's evaluation order: the task-14 unlock check first (main.py:921-925),
then the accepted check (main.py:927-929), then the pending check
(main.py:931-933). -/
def on_task_selected_gate (db : DB) (uid tid : Nat) : GateResult :=
  if tid == 14 && decide (user_has_accepted_count db uid < 3) then GateResult.taskLocked
  else if submission_accepted_for_task db uid tid then GateResult.alreadyAccepted
  else if submission_pending_for_task db uid tid then GateResult.reviewInProgress
  else GateResult.admitted

/-- Eligibility gate of `on_send_answer` (main.py:954-996), in the source's
evaluation order: the accepted check first (main.py:986-988), then the
pending check (main.py:989-991), then the task-14 unlock check
(main.py:992-996).  The registration and curator-assignment guards that
precede these checks (main.py:963-984) are modelled by the callers. -/
def on_send_answer_gate (db : DB) (uid tid : Nat) : GateResult :=
  if submission_accepted_for_task db uid tid then GateResult.alreadyAccepted
  else if submission_pending_for_task db uid tid then GateResult.reviewInProgress
  else if tid == 14 && decide (user_has_accepted_count db uid < 3) then GateResult.taskLocked
  else GateResult.admitted

/-- The eligibility gate in the order the specification's section 4.2 lists
its checks (unlock first, then accepted, then pending).  This definition
follows the specification's words, not the source; it exists to be compared
with `on_send_answer_gate`. -/
def spec_gate (db : DB) (uid tid : Nat) : GateResult :=
  if tid == 14 && decide (user_has_accepted_count db uid < 3) then GateResult.taskLocked
  else if submission_accepted_for_task db uid tid then GateResult.alreadyAccepted
  else if submission_pending_for_task db uid tid then GateResult.reviewInProgress
  else GateResult.admitted

/-- First submission row with a given id, the `SELECT ... WHERE id=?` of the
decision processor (main.py:1502, 1564, 1598). -/
def findSub (db : DB) (sid : Nat) : Option Sub :=
  db.subs.find? (fun s => s.id == sid)

/-- The `UPDATE submissions SET status=?, updated_at=? WHERE id=?` statement
(main.py:1522-1525, 1531-1534): every row whose id matches is rewritten. -/
def setStatusById (subs : List Sub) (sid : Nat) (st : Status) (now : Nat) : List Sub :=
  subs.map (fun s => if s.id == sid then { s with status := st, updated_at := now } else s)

/-- The `UPDATE users SET points = points + ? WHERE tg_id=?` statement
(main.py:1536). -/
def addPoints (users : List User) (uid : Nat) (pts : Int) : List User :=
  users.map (fun u => if u.tg_id == uid then { u with points := u.points + pts } else u)

/-- Outcome of one `curator_accept` invocation. -/
inductive AcceptOutcome
  | notFound
  | alreadyResolved
  | dupDemoted
  | accepted (pts : Int)
deriving DecidableEq, Repr

/-- Decision processor `curator_accept` (main.py:1494-1555).  Looks the
submission up by id (absent: alert, no mutation, main.py:1504-1506); refuses
when the status is no longer `pending` (main.py:1511-1513); when a sibling
(user, task) submission is already `accepted`, demotes this one to
`duplicate` and awards no points (main.py:1516-1528); otherwise sets
`accepted` and adds the task's point value to the user's total
(main.py:1531-1537).  A `task_by_id` raise (unknown task id) aborts before
the transaction commits, so it leaves the state unchanged
(`AcceptOutcome.notFound` reuses no constructor: the raise case is the
unchanged-state case below). -/
def curator_accept (db : DB) (sid now : Nat) : AcceptOutcome × DB :=
  match findSub db sid with
  | none => (AcceptOutcome.notFound, db)
  | some s =>
    if s.status != Status.pending then (AcceptOutcome.alreadyResolved, db)
    else if submission_accepted_for_task db s.user_id s.task_id then
      (AcceptOutcome.dupDemoted, { db with subs := setStatusById db.subs sid Status.duplicate now })
    else
      match task_by_id? s.task_id with
      | none => (AcceptOutcome.notFound, db)
      | some t =>
        (AcceptOutcome.accepted t.points,
         { db with
           subs := setStatusById db.subs sid Status.accepted now
           users := addPoints db.users s.user_id t.points })

/-- Guard of the reject button `curator_reject` (main.py:1559-1586): the
reason prompt is issued only when the submission exists and is still
`pending`; otherwise the handler alerts and stops. -/
def curator_reject_check (db : DB) (sid : Nat) : Bool :=
  match findSub db sid with
  | none => false
  | some s => s.status == Status.pending

/-- Catch-all reason handler `handle_curator_reject_reason`
(main.py:1589-1610).  It fetches `user_id, task_id` for the remembered
submission id — unpacking the fetched row raises when the row is absent
(`none` result) — and then sets `rejected` with the comment attached,
without re-checking the current status (main.py:1600-1602). -/
def handle_curator_reject_reason (db : DB) (sid : Nat) (reason : String) (now : Nat) :
    Option DB :=
  match findSub db sid with
  | none => none
  | some _ =>
    some { db with
           subs := db.subs.map (fun s =>
             if s.id == sid then
               { s with status := Status.rejected
                        curator_comment := some reason
                        updated_at := now }
             else s) }

/-- The curator's `idx` resolved from the telegram id, the scalar subquery
`SELECT idx FROM curators WHERE telegram_id=?` of the dispatcher
(main.py:1358).  A missing row makes the subquery NULL, and the SQL
comparison `u.curator_idx = NULL` then matches no user. -/
def curatorIdxOf (db : DB) (ctg : Nat) : Option Nat :=
  (db.curators.find? (fun c => c.telegram_id == ctg)).map (fun c => c.idx)

/-- The dispatcher's candidate pool: `pending` submissions joined to users
assigned to the given curator `idx` (main.py:1353-1361, sans the ordering). -/
def dispatchCandidates (db : DB) (cidx : Nat) : List Sub :=
  db.subs.filter (fun s =>
    s.status == Status.pending &&
    db.users.any (fun u => u.tg_id == s.user_id && u.curator_idx == some cidx))

/-- Leftmost row of minimal `created_at`, the `ORDER BY s.created_at ASC
LIMIT 1` of main.py:1359-1360 (SQLite leaves ties unspecified; leftmost in
table order is one refinement of it). -/
def selectOldest (l : List Sub) : Option Sub :=
  l.foldl
    (fun acc s =>
      match acc with
      | none => some s
      | some m => if s.created_at < m.created_at then some s else acc)
    none

/-- The `DELETE FROM submissions WHERE id=?` of the dispatcher's
reconciliation pass (main.py:1381). -/
def deleteSubById (db : DB) (sid : Nat) : DB :=
  { db with subs := db.subs.filter (fun s => s.id != sid) }

theorem selectOldest_mem_aux (l : List Sub) (acc : Option Sub) (s : Sub) :
    l.foldl
      (fun acc s =>
        match acc with
        | none => some s
        | some m => if s.created_at < m.created_at then some s else acc)
      acc = some s →
    s ∈ l ∨ acc = some s := by
  induction l generalizing acc with
  | nil => intro h; exact Or.inr h
  | cons a t ih =>
    intro h
    rcases ih _ h with h1 | h1
    · exact Or.inl (List.mem_cons_of_mem _ h1)
    · match acc with
      | none =>
        simp only at h1
        cases h1
        exact Or.inl (List.mem_cons_self _ _)
      | some m =>
        simp only at h1
        by_cases hc : a.created_at < m.created_at
        · rw [if_pos hc] at h1; cases h1; exact Or.inl (List.mem_cons_self _ _)
        · rw [if_neg hc] at h1; exact Or.inr h1

theorem selectOldest_mem {l : List Sub} {s : Sub} (h : selectOldest l = some s) : s ∈ l := by
  rcases selectOldest_mem_aux l none s h with h1 | h1
  · exact h1
  · cases h1

theorem length_filter_lt_of_mem {l : List Sub} {s : Sub}
    (hm : s ∈ l) : (l.filter (fun x => x.id != s.id)).length < l.length := by
  induction l with
  | nil => cases hm
  | cons a t ih =>
    by_cases ha : (a.id != s.id) = true
    · rcases List.mem_cons.mp hm with rfl | hm'
      · simp at ha
      · simp only [List.filter_cons, ha, if_true, List.length_cons]
        exact Nat.succ_lt_succ (ih hm')
    · simp only [List.filter_cons, ha, if_false, List.length_cons]
      exact Nat.lt_succ_of_le (List.length_filter_le _ t)

/-- Review-queue dispatcher loop `send_next_submission_to_curator`
(main.py:1350-1386), given the resolved curator `idx` and a recursion
budget.  Selects the oldest `pending` submission of this curator's users;
when none exists, reports the empty queue (`none`); when the selected
submission's (user, task) pair already has an `accepted` sibling, DELETES
the row (main.py:1379-1383) and loops; otherwise returns the submission to
be presented.  Rendering and message sending (main.py:1388-1490) have no
state effect and are omitted.  Every iteration deletes one stored row, so a
budget above the table size is never exhausted (`send_next_loop_fuel_high`
below shows the budget choice is immaterial). -/
def send_next_loop_fuel : Nat → DB → Nat → Option Sub × DB
  | 0, db, _ => (none, db)
  | fuel + 1, db, cidx =>
    match selectOldest (dispatchCandidates db cidx) with
    | none => (none, db)
    | some s =>
      if submission_accepted_for_task db s.user_id s.task_id then
        send_next_loop_fuel fuel (deleteSubById db s.id) cidx
      else
        (some s, db)

/-- The dispatcher loop with an always-adequate budget. -/
def send_next_loop (db : DB) (cidx : Nat) : Option Sub × DB :=
  send_next_loop_fuel (db.subs.length + 1) db cidx

theorem send_next_loop_fuel_high (fuel1 : Nat) : ∀ (fuel2 : Nat) (db : DB) (cidx : Nat),
    db.subs.length < fuel1 → db.subs.length < fuel2 →
    send_next_loop_fuel fuel1 db cidx = send_next_loop_fuel fuel2 db cidx := by
  induction fuel1 with
  | zero => intro fuel2 db cidx h1 _; omega
  | succ n ih =>
    intro fuel2 db cidx h1 h2
    cases fuel2 with
    | zero => omega
    | succ m =>
      rcases hs : selectOldest (dispatchCandidates db cidx) with _ | s
      · simp only [send_next_loop_fuel, hs]
      · simp only [send_next_loop_fuel, hs]
        by_cases hacc : submission_accepted_for_task db s.user_id s.task_id = true
        · rw [if_pos hacc, if_pos hacc]
          have hmem : s ∈ db.subs :=
            List.mem_of_mem_filter (selectOldest_mem hs)
          have hlt : (deleteSubById db s.id).subs.length < db.subs.length :=
            length_filter_lt_of_mem hmem
          exact ih m (deleteSubById db s.id) cidx (by omega) (by omega)
        · rw [if_neg hacc, if_neg hacc]

/-- Entry point of the dispatcher for a curator telegram id
(main.py:1350-1361): resolve the curator row, then run the selection loop.
When the telegram id has no curator row the NULL subquery yields no
candidate, so the handler only reports the empty queue. -/
def send_next_submission_to_curator (db : DB) (ctg : Nat) : Option Sub × DB :=
  match curatorIdxOf db ctg with
  | none => (none, db)
  | some cidx => send_next_loop db cidx

/-- Insertion common to all submission paths: every path writes one row with
status `pending` (main.py:1048-1052, 1124-1130, 1205-1211, 1318-1324) and a
fresh AUTOINCREMENT id. -/
def insertPending (db : DB) (uid tid : Nat) (ctype content : String) (now : Nat) : DB :=
  { db with
    subs := db.subs ++
      [⟨db.next_sub_id, uid, tid, Status.pending, ctype, content, none, now, now⟩]
    next_sub_id := db.next_sub_id + 1 }

/-- Events that touch the submission table: an insertion by any submission
path, a curator accept decision, an applied reject reason, and a dispatcher
advance for some curator. -/
inductive DEv
  | insertSub (uid tid : Nat) (ctype content : String) (now : Nat)
  | acceptEv (sid now : Nat)
  | rejectEv (sid : Nat) (reason : String) (now : Nat)
  | dispatchEv (ctg : Nat)

/-- One event applied to the store.  A reject reason for an id that no
longer exists raises before mutating (the `none` of
`handle_curator_reject_reason`), leaving the store unchanged. -/
def dstep (db : DB) (e : DEv) : DB :=
  match e with
  | DEv.insertSub uid tid ct c now => insertPending db uid tid ct c now
  | DEv.acceptEv sid now => (curator_accept db sid now).2
  | DEv.rejectEv sid reason now => (handle_curator_reject_reason db sid reason now).getD db
  | DEv.dispatchEv ctg => (send_next_submission_to_curator db ctg).2

/-- A run of the store from an initial state. -/
def drun (db : DB) (evs : List DEv) : DB :=
  evs.foldl dstep db

/-- The initial store: any curator lineup and user roster, no submissions
yet (`init_db` creates empty tables, main.py:244-277). -/
def initDB (cs : List Curator) (us : List User) : DB :=
  ⟨cs, us, [], none, 0⟩

/-- Number of `accepted` submissions of one (participant, task) pair. -/
def countAcceptedPair (db : DB) (uid tid : Nat) : Nat :=
  db.subs.countP (fun s => s.user_id == uid && s.task_id == tid && s.status == Status.accepted)

/-- Well-formedness the AUTOINCREMENT key guarantees: ids are distinct and
below the counter. -/
def GoodIds (db : DB) : Prop :=
  (db.subs.map (fun s => s.id)).Nodup ∧ ∀ s ∈ db.subs, s.id < db.next_sub_id

theorem accepted_for_task_iff_count (db : DB) (uid tid : Nat) :
    submission_accepted_for_task db uid tid = true ↔ 0 < countAcceptedPair db uid tid := by
  rw [submission_accepted_for_task, countAcceptedPair, List.countP_pos_iff, List.any_eq_true]

theorem find?_cons_pos {α : Type} (p : α → Bool) (a : α) (t : List α) (h : p a = true) :
    (a :: t).find? p = some a :=
  List.find?_cons_of_pos t h

theorem find?_cons_neg {α : Type} (p : α → Bool) (a : α) (t : List α) (h : p a = false) :
    (a :: t).find? p = t.find? p :=
  List.find?_cons_of_neg t (by simp [h])

/-- Decomposition of an `UPDATE ... WHERE id=?` style map around the unique
row holding the id. -/
theorem map_update_decomp (l : List Sub) (sid : Nat) (g : Sub → Sub)
    (hN : (l.map (fun x => x.id)).Nodup) (s : Sub)
    (hf : l.find? (fun x => x.id == sid) = some s) :
    ∃ l1 l2, l = l1 ++ s :: l2 ∧
      l.map (fun x => if x.id == sid then g x else x) = l1 ++ g s :: l2 ∧
      (∀ x ∈ l1, (x.id == sid) = false) ∧ (∀ x ∈ l2, (x.id == sid) = false) := by
  induction l with
  | nil => cases hf
  | cons a t ih =>
    by_cases ha : (a.id == sid) = true
    · rw [find?_cons_pos (fun x => x.id == sid) a t ha] at hf
      cases hf
      refine ⟨[], t, rfl, ?_, ?_, ?_⟩
      · simp only [List.map_cons, ha, if_true, List.nil_append]
        congr 1
        have hnot : ∀ x ∈ t, (x.id == sid) = false := by
          intro x hx
          rw [List.map_cons] at hN
          have := (List.nodup_cons.mp hN).1
          by_contra hcon
          simp only [Bool.not_eq_false, beq_iff_eq] at hcon
          have hsx : s.id = x.id := by
            have := beq_iff_eq.mp ha
            omega
          exact this (hsx ▸ List.mem_map_of_mem (fun x => x.id) hx)
        calc t.map (fun x => if (x.id == sid) = true then g x else x)
            = t.map (fun x => x) := by
              apply List.map_congr_left
              intro x hx
              simp [hnot x hx]
          _ = t := List.map_id t
      · intro x hx; cases hx
      · intro x hx
        rw [List.map_cons] at hN
        have hni := (List.nodup_cons.mp hN).1
        by_contra hcon
        simp only [Bool.not_eq_false, beq_iff_eq] at hcon
        have hsx : s.id = x.id := by
          have := beq_iff_eq.mp ha; omega
        exact hni (hsx ▸ List.mem_map_of_mem (fun x => x.id) hx)
    · rw [find?_cons_neg (fun x => x.id == sid) a t (by simpa using ha)] at hf
      rw [List.map_cons] at hN
      obtain ⟨l1, l2, he, hm, h1, h2⟩ := ih (List.nodup_cons.mp hN).2 hf
      refine ⟨a :: l1, l2, by rw [he, List.cons_append], ?_, ?_, h2⟩
      · simp only [List.map_cons, ha, if_false, hm, List.cons_append]
        rw [if_neg (by simp_all)]
      · intro x hx
        rcases List.mem_cons.mp hx with rfl | hx'
        · simpa using ha
        · exact h1 x hx'

theorem find?_decomp (l1 l2 : List Sub) (x : Sub) (sid : Nat)
    (h1 : ∀ y ∈ l1, (y.id == sid) = false) (hx : (x.id == sid) = true) :
    (l1 ++ x :: l2).find? (fun y => y.id == sid) = some x := by
  induction l1 with
  | nil => exact find?_cons_pos (fun y => y.id == sid) x l2 hx
  | cons a t ih =>
    rw [List.cons_append,
        find?_cons_neg (fun y => y.id == sid) a (t ++ x :: l2) (h1 a (List.mem_cons_self _ _))]
    exact ih (fun y hy => h1 y (List.mem_cons_of_mem _ hy))

theorem send_next_loop_fuel_effect (fuel : Nat) : ∀ (db : DB) (cidx : Nat),
    (send_next_loop_fuel fuel db cidx).2.subs.Sublist db.subs ∧
    (send_next_loop_fuel fuel db cidx).2.users = db.users ∧
    (send_next_loop_fuel fuel db cidx).2.next_sub_id = db.next_sub_id := by
  induction fuel with
  | zero => intro db cidx; exact ⟨List.Sublist.refl _, rfl, rfl⟩
  | succ n ih =>
    intro db cidx
    rcases hs : selectOldest (dispatchCandidates db cidx) with _ | s
    · rw [show send_next_loop_fuel (n + 1) db cidx = (none, db) by
        simp only [send_next_loop_fuel, hs]]
      exact ⟨List.Sublist.refl _, rfl, rfl⟩
    · simp only [send_next_loop_fuel, hs]
      by_cases hacc : submission_accepted_for_task db s.user_id s.task_id = true
      · rw [if_pos hacc]
        obtain ⟨h1, h2, h3⟩ := ih (deleteSubById db s.id) cidx
        exact ⟨h1.trans (List.filter_sublist _), h2, h3⟩
      · rw [if_neg hacc]
        exact ⟨List.Sublist.refl _, rfl, rfl⟩

theorem send_next_loop_effect (db : DB) (cidx : Nat) :
    (send_next_loop db cidx).2.subs.Sublist db.subs ∧
    (send_next_loop db cidx).2.users = db.users ∧
    (send_next_loop db cidx).2.next_sub_id = db.next_sub_id :=
  send_next_loop_fuel_effect (db.subs.length + 1) db cidx

theorem send_next_effect (db : DB) (ctg : Nat) :
    (send_next_submission_to_curator db ctg).2.subs.Sublist db.subs ∧
    (send_next_submission_to_curator db ctg).2.users = db.users ∧
    (send_next_submission_to_curator db ctg).2.next_sub_id = db.next_sub_id := by
  rw [send_next_submission_to_curator]
  match curatorIdxOf db ctg with
  | none => exact ⟨List.Sublist.refl _, rfl, rfl⟩
  | some cidx => exact send_next_loop_effect db cidx

theorem map_id_update (l : List Sub) (sid : Nat) (g : Sub → Sub)
    (hg : ∀ s, (g s).id = s.id) :
    (l.map (fun s => if s.id == sid then g s else s)).map (fun s => s.id) =
    l.map (fun s => s.id) := by
  rw [List.map_map]
  apply List.map_congr_left
  intro x _
  by_cases h : x.id = sid <;> simp [h, hg]

theorem goodIds_update (db : DB) (sid : Nat) (g : Sub → Sub)
    (hg : ∀ s, (g s).id = s.id) (hG : GoodIds db) :
    GoodIds { db with subs := db.subs.map (fun s => if s.id == sid then g s else s) } := by
  constructor
  · rw [map_id_update db.subs sid g hg]
    exact hG.1
  · intro s hs
    obtain ⟨y, hy, hey⟩ := List.mem_map.mp hs
    have : s.id = y.id := by
      subst hey
      by_cases h : y.id = sid <;> simp [h, hg]
    rw [this]
    exact hG.2 y hy

theorem goodIds_dstep (db : DB) (e : DEv) (hG : GoodIds db) : GoodIds (dstep db e) := by
  match e with
  | DEv.insertSub uid tid ct c now =>
    constructor
    · simp only [dstep, insertPending, List.map_append, List.map_cons, List.map_nil]
      rw [List.nodup_append]
      refine ⟨hG.1, List.nodup_singleton _, ?_⟩
      intro x hx
      simp only [List.mem_singleton]
      obtain ⟨y, hy, hey⟩ := List.mem_map.mp hx
      intro hc
      have := hG.2 y hy
      omega
    · intro s hs
      simp only [dstep, insertPending] at hs ⊢
      rcases List.mem_append.mp hs with h1 | h1
      · exact Nat.lt_succ_of_lt (hG.2 s h1)
      · simp only [List.mem_singleton] at h1
        subst h1
        exact Nat.lt_succ_self _
  | DEv.acceptEv sid now =>
    simp only [dstep, curator_accept]
    match hf : findSub db sid with
    | none => exact hG
    | some s =>
      by_cases hp : (s.status != Status.pending) = true
      · simp only [hp, if_true]; exact hG
      · simp only [hp, if_false]
        by_cases hacc : submission_accepted_for_task db s.user_id s.task_id = true
        · simp only [hacc, if_true]
          exact goodIds_update db sid _ (fun _ => rfl) hG
        · simp only [hacc, if_false]
          match task_by_id? s.task_id with
          | none => exact hG
          | some t =>
            have := goodIds_update db sid
              (fun x => { x with status := Status.accepted, updated_at := now })
              (fun _ => rfl) hG
            exact ⟨this.1, this.2⟩
  | DEv.rejectEv sid reason now =>
    simp only [dstep, handle_curator_reject_reason]
    match hf : findSub db sid with
    | none => exact hG
    | some s =>
      exact goodIds_update db sid
        (fun x => { x with status := Status.rejected,
                           curator_comment := some reason, updated_at := now })
        (fun _ => rfl) hG
  | DEv.dispatchEv ctg =>
    obtain ⟨hsub, _, hnid⟩ := send_next_effect db ctg
    constructor
    · exact (hsub.map (fun s => s.id)).nodup hG.1
    · intro s hs
      rw [dstep, hnid]
      exact hG.2 s (hsub.mem hs)

theorem count_decomp (p : Sub → Bool) (l1 l2 : List Sub) (x : Sub) :
    (l1 ++ x :: l2).countP p = l1.countP p + (if p x then 1 else 0) + l2.countP p := by
  by_cases h : p x = true <;> simp [h, List.countP_append, List.countP_cons] <;> omega

/-- Case analysis of the state `curator_accept` leaves behind: unchanged, a
demotion to `duplicate`, or the accept with the points credit. -/
theorem curator_accept_db (db : DB) (sid now : Nat) :
    (curator_accept db sid now).2 = db ∨
    (∃ s, findSub db sid = some s ∧ s.status = Status.pending ∧
      submission_accepted_for_task db s.user_id s.task_id = true ∧
      (curator_accept db sid now).2 =
        { db with subs := setStatusById db.subs sid Status.duplicate now }) ∨
    (∃ s tk, findSub db sid = some s ∧ s.status = Status.pending ∧
      submission_accepted_for_task db s.user_id s.task_id = false ∧
      task_by_id? s.task_id = some tk ∧
      (curator_accept db sid now).2 =
        { db with users := addPoints db.users s.user_id tk.points
                  subs := setStatusById db.subs sid Status.accepted now }) := by
  unfold curator_accept
  split
  · left; rfl
  next s hf =>
    split
    next hp => left; rfl
    next hp =>
      have hpend : s.status = Status.pending := by simpa using hp
      split
      next hacc => right; left; exact ⟨s, hf, hpend, hacc, rfl⟩
      next hacc =>
        split
        next htk => left; rfl
        next tk htk =>
          right; right
          exact ⟨s, tk, hf, hpend, by simpa using hacc, htk, rfl⟩

theorem i2_dstep (db : DB) (e : DEv) (hG : GoodIds db)
    (hI : ∀ u t, countAcceptedPair db u t ≤ 1) (u t : Nat) :
    countAcceptedPair (dstep db e) u t ≤ 1 := by
  match e with
  | DEv.insertSub uid tid ct c now =>
    have h := hI u t
    simp only [countAcceptedPair, dstep, insertPending, List.countP_append,
      List.countP_cons, List.countP_nil] at h ⊢
    simpa using h
  | DEv.acceptEv sid now =>
    show countAcceptedPair (curator_accept db sid now).2 u t ≤ 1
    rcases curator_accept_db db sid now with hdb |
      ⟨s, hf, _, _, hdb⟩ | ⟨s, tk, hf, hpend, hacc, _, hdb⟩
    · rw [hdb]; exact hI u t
    · rw [hdb]
      obtain ⟨l1, l2, he, hm, _, _⟩ := map_update_decomp db.subs sid
        (fun x => { x with status := Status.duplicate, updated_at := now }) hG.1 s hf
      have hb := hI u t
      rw [countAcceptedPair, he, count_decomp] at hb
      simp only [countAcceptedPair, setStatusById, hm, count_decomp]
      have hgp : ¬(s.user_id == u && s.task_id == t &&
          (Status.duplicate == Status.accepted)) = true := by
        simp
      rw [if_neg hgp]
      split at hb <;> omega
    · rw [hdb]
      obtain ⟨l1, l2, he, hm, _, _⟩ := map_update_decomp db.subs sid
        (fun x => { x with status := Status.accepted, updated_at := now }) hG.1 s hf
      have hzero : countAcceptedPair db s.user_id s.task_id = 0 := by
        by_contra hc
        rw [(accepted_for_task_iff_count db s.user_id s.task_id).mpr
          (Nat.pos_of_ne_zero hc)] at hacc
        cases hacc
      have hb := hI u t
      rw [countAcceptedPair, he, count_decomp] at hb
      rw [countAcceptedPair, he, count_decomp] at hzero
      simp only [countAcceptedPair, setStatusById, hm, count_decomp]
      by_cases hu : s.user_id = u ∧ s.task_id = t
      · obtain ⟨hu1, hu2⟩ := hu
        subst hu1
        subst hu2
        have hps : ¬(s.user_id == s.user_id && s.task_id == s.task_id &&
            s.status == Status.accepted) = true := by
          simp [hpend]
        rw [if_neg hps] at hzero
        have hgp : (s.user_id == s.user_id && s.task_id == s.task_id &&
            (Status.accepted == Status.accepted)) = true := by
          simp
        rw [if_pos hgp]
        omega
      · have hgp : ¬(s.user_id == u && s.task_id == t &&
            (Status.accepted == Status.accepted)) = true := by
          intro hcon
          simp only [Bool.and_eq_true, beq_iff_eq] at hcon
          exact hu ⟨hcon.1.1, hcon.1.2⟩
        rw [if_neg hgp]
        split at hb <;> omega
  | DEv.rejectEv sid reason now =>
    simp only [dstep, handle_curator_reject_reason]
    match hf : findSub db sid with
    | none => exact hI u t
    | some s =>
      obtain ⟨l1, l2, he, hm, _, _⟩ := map_update_decomp db.subs sid
        (fun x => { x with status := Status.rejected,
                           curator_comment := some reason, updated_at := now }) hG.1 s hf
      show countAcceptedPair
        { db with subs := db.subs.map (fun x =>
            if x.id == sid then
              { x with status := Status.rejected,
                       curator_comment := some reason, updated_at := now }
            else x) } u t ≤ 1
      have hb := hI u t
      rw [countAcceptedPair, he, count_decomp] at hb
      simp only [countAcceptedPair, hm, count_decomp]
      have hgp : ¬(s.user_id == u && s.task_id == t &&
          (Status.rejected == Status.accepted)) = true := by
        simp
      rw [if_neg hgp]
      split at hb <;> omega
  | DEv.dispatchEv ctg =>
    obtain ⟨hsub, _, _⟩ := send_next_effect db ctg
    exact le_trans (hsub.countP_le _) (hI u t)

theorem drun_inv (db : DB) (evs : List DEv) (hG : GoodIds db)
    (hI : ∀ u t, countAcceptedPair db u t ≤ 1) :
    GoodIds (drun db evs) ∧ ∀ u t, countAcceptedPair (drun db evs) u t ≤ 1 := by
  induction evs generalizing db with
  | nil => exact ⟨hG, hI⟩
  | cons e evs ih => exact ih (dstep db e) (goodIds_dstep db e hG) (i2_dstep db e hG hI)

theorem goodIds_initDB (cs : List Curator) (us : List User) : GoodIds (initDB cs us) :=
  ⟨List.nodup_nil, by intro s hs; cases hs⟩

theorem i2_initDB (cs : List Curator) (us : List User) (u t : Nat) :
    countAcceptedPair (initDB cs us) u t ≤ 1 := by
  simp [countAcceptedPair, initDB]

/-- Lookup after a keyed update: the first row with the key is rewritten and
still found first (the update preserves the key). -/
theorem find?_update_sub (subs : List Sub) (sid : Nat) (g : Sub → Sub)
    (hg : ∀ x, (g x).id = x.id) (s : Sub)
    (hf : subs.find? (fun x => x.id == sid) = some s) :
    (subs.map (fun x => if x.id == sid then g x else x)).find? (fun x => x.id == sid) =
      some (g s) := by
  induction subs with
  | nil => cases hf
  | cons a t ih =>
    by_cases pa : (a.id == sid) = true
    · rw [find?_cons_pos (fun x => x.id == sid) a t pa] at hf
      cases hf
      simp only [List.map_cons, pa, if_true]
      exact find?_cons_pos _ _ _ (by rw [hg]; exact pa)
    · rw [find?_cons_neg (fun x => x.id == sid) a t (by simpa using pa)] at hf
      simp only [List.map_cons, pa, Bool.false_eq_true, if_false]
      rw [find?_cons_neg (fun x => x.id == sid) a _ (by simpa using pa)]
      exact ih hf

theorem find?_setStatus (subs : List Sub) (sid : Nat) (st : Status) (now : Nat) (s : Sub)
    (hf : subs.find? (fun x => x.id == sid) = some s) :
    (setStatusById subs sid st now).find? (fun x => x.id == sid) =
      some { s with status := st, updated_at := now } :=
  find?_update_sub subs sid (fun x => { x with status := st, updated_at := now })
    (fun _ => rfl) s hf

/-- Lookup after the points credit: the first row of the user keeps all
fields but carries exactly `pts` more points. -/
theorem addPoints_find? (users : List User) (uid : Nat) (pts : Int) (urow : User)
    (hu : users.find? (fun x => x.tg_id == uid) = some urow) :
    (addPoints users uid pts).find? (fun x => x.tg_id == uid) =
      some { urow with points := urow.points + pts } := by
  induction users with
  | nil => cases hu
  | cons a t ih =>
    by_cases pa : (a.tg_id == uid) = true
    · rw [find?_cons_pos (fun x => x.tg_id == uid) a t pa] at hu
      cases hu
      simp only [addPoints, List.map_cons, pa, if_true]
      exact find?_cons_pos _ _ _ pa
    · rw [find?_cons_neg (fun x => x.tg_id == uid) a t (by simpa using pa)] at hu
      simp only [addPoints, List.map_cons, pa, Bool.false_eq_true, if_false]
      rw [find?_cons_neg (fun x => x.tg_id == uid) a _ (by simpa using pa)]
      exact ih hu

/-- The accept decision applied to a still-`pending` submission whose
(participant, task) pair already carries an `accepted` sibling: demotion to
`duplicate`, nothing else. -/
theorem curator_accept_dup_spec (db : DB) (sid now : Nat) (s : Sub)
    (hf : findSub db sid = some s) (hpend : s.status = Status.pending)
    (hacc : submission_accepted_for_task db s.user_id s.task_id = true) :
    curator_accept db sid now =
      (AcceptOutcome.dupDemoted,
       { db with subs := setStatusById db.subs sid Status.duplicate now }) := by
  unfold curator_accept
  split
  next heq => rw [heq] at hf; cases hf
  next s' heq =>
    rw [heq] at hf
    injection hf with hss
    subst hss
    rw [if_neg (by simp [hpend]), if_pos hacc]

/-- The accept decision applied to a still-`pending` submission with no
`accepted` sibling: the status flips to `accepted` and the task's point
value is credited. -/
theorem curator_accept_ok_spec (db : DB) (sid now : Nat) (s : Sub) (tk : Task)
    (hf : findSub db sid = some s) (hpend : s.status = Status.pending)
    (hacc : submission_accepted_for_task db s.user_id s.task_id = false)
    (htk : task_by_id? s.task_id = some tk) :
    curator_accept db sid now =
      (AcceptOutcome.accepted tk.points,
       { db with users := addPoints db.users s.user_id tk.points
                 subs := setStatusById db.subs sid Status.accepted now }) := by
  unfold curator_accept
  split
  next heq => rw [heq] at hf; cases hf
  next s' heq =>
    rw [heq] at hf
    injection hf with hss
    subst hss
    rw [if_neg (by simp [hpend]), if_neg (by simp [hacc]), htk]

/-- The accept decision applied to a submission that is no longer
`pending`: refused, state untouched. -/
theorem curator_accept_resolved_spec (db : DB) (sid now : Nat) (s : Sub)
    (hf : findSub db sid = some s) (hnp : s.status ≠ Status.pending) :
    curator_accept db sid now = (AcceptOutcome.alreadyResolved, db) := by
  unfold curator_accept
  split
  next heq => rw [heq] at hf; cases hf
  next s' heq =>
    rw [heq] at hf
    injection hf with hss
    subst hss
    rw [if_pos (by simpa using hnp)]

/-- C1: over every run of the store (insertions by the submission paths,
accept decisions, applied reject reasons, dispatcher advances), each
(participant, task) pair holds at most one `accepted` submission; and a
still-`pending` submission whose pair already has an `accepted` sibling
resolves under an accept decision to `duplicate` — never to `accepted` —
with every participant's points untouched. -/
theorem c1_accepted_at_most_once (cs : List Curator) (us : List User) (evs : List DEv)
    (sid now : Nat) :
    (∀ u t, countAcceptedPair (drun (initDB cs us) evs) u t ≤ 1) ∧
    (∀ s, findSub (drun (initDB cs us) evs) sid = some s →
      s.status = Status.pending →
      submission_accepted_for_task (drun (initDB cs us) evs) s.user_id s.task_id = true →
      curator_accept (drun (initDB cs us) evs) sid now =
        (AcceptOutcome.dupDemoted,
         { drun (initDB cs us) evs with
             subs := setStatusById (drun (initDB cs us) evs).subs sid Status.duplicate now }) ∧
      findSub (curator_accept (drun (initDB cs us) evs) sid now).2 sid =
        some { s with status := Status.duplicate, updated_at := now } ∧
      (curator_accept (drun (initDB cs us) evs) sid now).2.users =
        (drun (initDB cs us) evs).users) := by
  obtain ⟨_, hI⟩ := drun_inv (initDB cs us) evs (goodIds_initDB cs us) (i2_initDB cs us)
  refine ⟨hI, ?_⟩
  intro s hf hpend hacc
  have hspec := curator_accept_dup_spec (drun (initDB cs us) evs) sid now s hf hpend hacc
  refine ⟨hspec, ?_, by rw [hspec]⟩
  rw [hspec]
  exact find?_setStatus _ sid Status.duplicate now s hf

def c1wUsers : List User := [⟨1, "a", "g", none, 0⟩]

def c1wEvs : List DEv :=
  [DEv.insertSub 1 2 "text" "x" 0, DEv.acceptEv 0 1, DEv.insertSub 1 2 "text" "y" 2]

def c1wSub : Sub := ⟨1, 1, 2, Status.pending, "text", "y", none, 2, 2⟩

theorem c1_accepted_at_most_once_witness :
    countAcceptedPair (drun (initDB [] c1wUsers) c1wEvs) 1 2 ≤ 1 ∧
    curator_accept (drun (initDB [] c1wUsers) c1wEvs) 1 3 =
      (AcceptOutcome.dupDemoted,
       { drun (initDB [] c1wUsers) c1wEvs with
           subs := setStatusById (drun (initDB [] c1wUsers) c1wEvs).subs 1
             Status.duplicate 3 }) :=
  ⟨(c1_accepted_at_most_once [] c1wUsers c1wEvs 1 3).1 1 2,
   ((c1_accepted_at_most_once [] c1wUsers c1wEvs 1 3).2 c1wSub (by decide) (by decide)
     (by decide)).1⟩

/-- A store holding, for one curator's participant, an `accepted` submission
for task 2, an older `pending` duplicate of the same pair, and a younger
`pending` submission for task 3. -/
def c2DB : DB :=
  ⟨[⟨1, "c", 100⟩], [⟨10, "u", "g", some 1, 0⟩],
   [⟨0, 10, 2, Status.accepted, "text", "a", none, 0, 5⟩,
    ⟨1, 10, 2, Status.pending, "text", "b", none, 1, 1⟩,
    ⟨2, 10, 3, Status.pending, "text", "c", none, 2, 2⟩],
   some 1, 3⟩

/-- C2 counterexample: the oldest pending submission (id 1) belongs to a
pair that already reached `accepted`; the dispatcher removes that row from
the table (main.py:1381 is a DELETE) and presents the next candidate — no
row, in particular not the reconciled one, ever carries status `duplicate`. -/
theorem c2_counterexample :
    (∀ s ∈ c2DB.subs, s.id = 1 → s.status = Status.pending) ∧
    (send_next_submission_to_curator c2DB 100).1 =
      some ⟨2, 10, 3, Status.pending, "text", "c", none, 2, 2⟩ ∧
    (send_next_submission_to_curator c2DB 100).2.subs =
      [⟨0, 10, 2, Status.accepted, "text", "a", none, 0, 5⟩,
       ⟨2, 10, 3, Status.pending, "text", "c", none, 2, 2⟩] ∧
    (∀ s ∈ (send_next_submission_to_curator c2DB 100).2.subs,
      s.status ≠ Status.duplicate) := by
  decide

/-- C2 amended: when the selected oldest pending submission's pair already
has an `accepted` sibling, the dispatcher DELETES that row (rather than
demoting it to `duplicate`) without presenting it, and loops to select the
next candidate; the loop never rewrites a status — every surviving row is an
original row of the table. -/
theorem c2_dispatcher_deletes (db : DB) (cidx : Nat) (s : Sub)
    (hs : selectOldest (dispatchCandidates db cidx) = some s)
    (hacc : submission_accepted_for_task db s.user_id s.task_id = true) :
    send_next_loop db cidx = send_next_loop (deleteSubById db s.id) cidx ∧
    (∀ x ∈ (send_next_loop db cidx).2.subs, x ∈ db.subs) := by
  have hlt : (deleteSubById db s.id).subs.length < db.subs.length :=
    length_filter_lt_of_mem (List.mem_of_mem_filter (selectOldest_mem hs))
  constructor
  · show send_next_loop_fuel (db.subs.length + 1) db cidx = _
    rw [show send_next_loop_fuel (db.subs.length + 1) db cidx =
        send_next_loop_fuel db.subs.length (deleteSubById db s.id) cidx by
      simp only [send_next_loop_fuel, hs]
      rw [if_pos hacc]]
    exact send_next_loop_fuel_high _ _ _ cidx hlt (Nat.lt_succ_self _)
  · intro x hx
    exact (send_next_loop_effect db cidx).1.subset hx

theorem c2_dispatcher_deletes_witness :
    send_next_loop c2DB 1 =
      send_next_loop (deleteSubById c2DB 1) 1 ∧
    (∀ x ∈ (send_next_loop c2DB 1).2.subs, x ∈ c2DB.subs) := by
  have h := c2_dispatcher_deletes c2DB 1
    ⟨1, 10, 2, Status.pending, "text", "b", none, 1, 1⟩ (by decide) (by decide)
  exact h

/-- A store with one curator but no `next_curator_idx` meta row (the source
never seeds the cursor; a fresh database is exactly in this state). -/
def c5DB : DB := ⟨[⟨1, "c", 100⟩], [], [], none, 0⟩

/-- C5 counterexample: the curator list is non-empty, yet `get_next_curator`
returns `None`, because the cursor row is absent (main.py:318-321 returns
before consulting the curator list). -/
theorem c5_counterexample :
    c5DB.curators ≠ [] ∧ (get_next_curator c5DB).1 = none := by
  decide

/-- C5 amended: `get_next_curator` returns `None` iff the cursor meta row is
absent or the curator list is empty; in either `None` case the store is
untouched (the cursor write happens only on the success path); whenever the
cursor row exists and at least one curator exists, some stored curator is
returned. -/
theorem c5_get_next_curator_spec (db : DB) :
    ((get_next_curator db).1 = none ↔ db.next_curator_idx = none ∨ db.curators = []) ∧
    ((get_next_curator db).1 = none → (get_next_curator db).2 = db) ∧
    (∀ c, (get_next_curator db).1 = some c → c ∈ db.curators) := by
  rcases hn : db.next_curator_idx with _ | n
  · refine ⟨by simp [get_next_curator, hn], ?_, ?_⟩
    · intro _; simp [get_next_curator, hn]
    · intro c hc
      simp only [get_next_curator, hn] at hc
      cases hc
  · rcases hc : db.curators with _ | ⟨c0, rest⟩
    · refine ⟨by simp [get_next_curator, hn, hc], ?_, ?_⟩
      · intro _; simp [get_next_curator, hn, hc]
      · intro c hcc
        simp only [get_next_curator, hn, hc] at hcc
        cases hcc
    · refine ⟨by simp [get_next_curator, hn, hc], ?_, ?_⟩
      · intro hnone
        exfalso
        simp [get_next_curator, hn, hc] at hnone
      · intro c hcc
        simp only [get_next_curator, hn, hc] at hcc
        show c ∈ c0 :: rest
        rcases hfind : (c0 :: rest).find? (fun r => r.idx == n) with _ | r
        · rw [hfind] at hcc
          simp only [Option.some.injEq] at hcc
          rw [← hcc]
          exact List.mem_cons_self _ _
        · rw [hfind] at hcc
          simp only [Option.some.injEq] at hcc
          rw [← hcc]
          exact List.mem_of_find?_eq_some hfind

theorem c5_get_next_curator_spec_witness :
    ((get_next_curator c5DB).1 = none ↔
      c5DB.next_curator_idx = none ∨ c5DB.curators = []) ∧
    ((get_next_curator c5DB).1 = none → (get_next_curator c5DB).2 = c5DB) :=
  ⟨(c5_get_next_curator_spec c5DB).1, (c5_get_next_curator_spec c5DB).2.1⟩

/-- A store in which participant 1 has a `pending` submission for the
unlock-gated task 14 and zero accepted submissions. -/
def c7DB : DB :=
  ⟨[], [⟨1, "u", "g", some 1, 0⟩],
   [⟨0, 1, 14, Status.pending, "photo_video", "x", none, 0, 0⟩], none, 1⟩

/-- C7 counterexample: for the unlock-gated task with accepted-count below
3, the send-answer gate answers `ReviewInProgress` — the pending check fires
before the lock check ever runs (main.py:989-996), contradicting the
locked-first order of the specification's section 4.2. -/
theorem c7_counterexample :
    user_has_accepted_count c7DB 1 < 3 ∧
    on_send_answer_gate c7DB 1 14 = GateResult.reviewInProgress ∧
    on_send_answer_gate c7DB 1 14 ≠ GateResult.taskLocked ∧
    spec_gate c7DB 1 14 = GateResult.taskLocked := by
  decide

/-- C7 amended: the send-answer gate checks AlreadyAccepted first, then
ReviewInProgress, and the task-14 lock only last; the task-selection gate
checks the lock first; in both orders exactly the attempts passing all
three checks are admitted, so the two gates agree on admission with the
specification's order. -/
theorem c7_gate_order (db : DB) (uid tid : Nat) :
    (on_send_answer_gate db uid tid = GateResult.admitted ↔
      submission_accepted_for_task db uid tid = false ∧
      submission_pending_for_task db uid tid = false ∧
      ¬(tid = 14 ∧ user_has_accepted_count db uid < 3)) ∧
    (submission_accepted_for_task db uid tid = true →
      on_send_answer_gate db uid tid = GateResult.alreadyAccepted) ∧
    (submission_accepted_for_task db uid tid = false →
      submission_pending_for_task db uid tid = true →
      on_send_answer_gate db uid tid = GateResult.reviewInProgress) ∧
    (tid = 14 → user_has_accepted_count db uid < 3 →
      on_task_selected_gate db uid tid = GateResult.taskLocked) ∧
    (on_send_answer_gate db uid tid = GateResult.admitted ↔
      spec_gate db uid tid = GateResult.admitted) := by
  unfold on_send_answer_gate on_task_selected_gate spec_gate
  by_cases ha : submission_accepted_for_task db uid tid = true <;>
    by_cases hp : submission_pending_for_task db uid tid = true <;>
      by_cases hl : (tid == 14 && decide (user_has_accepted_count db uid < 3)) = true <;>
        simp_all [Bool.and_eq_true, decide_eq_true_iff] <;>
          rw [if_neg (by intro hcon; exact absurd (hl hcon.1) (by omega))] <;>
            simp

def c7DB2 : DB := ⟨[], [⟨1, "u", "g", some 1, 0⟩], [], none, 0⟩

theorem c7_gate_order_witness :
    (on_send_answer_gate c7DB2 1 2 = GateResult.admitted ↔
      submission_accepted_for_task c7DB2 1 2 = false ∧
      submission_pending_for_task c7DB2 1 2 = false ∧
      ¬(2 = 14 ∧ user_has_accepted_count c7DB2 1 < 3)) ∧
    (2 = 14 → user_has_accepted_count c7DB2 1 < 3 →
      on_task_selected_gate c7DB2 1 2 = GateResult.taskLocked) :=
  ⟨(c7_gate_order c7DB2 1 2).1, (c7_gate_order c7DB2 1 2).2.2.2.1⟩

/-- C8: `curator_accept` on a submission that is still `pending` with no
accepted sibling marks it `accepted` and credits exactly the task's point
value to the participant's row; on a submission that is no longer `pending`
it fails with the already-resolved alert and performs no mutation at all. -/
theorem c8_curator_accept_spec (db : DB) (sid now : Nat) (s : Sub)
    (hf : findSub db sid = some s) :
    (s.status = Status.pending →
      submission_accepted_for_task db s.user_id s.task_id = false →
      ∀ tk, task_by_id? s.task_id = some tk →
      ∀ urow, db.users.find? (fun x => x.tg_id == s.user_id) = some urow →
      (curator_accept db sid now).1 = AcceptOutcome.accepted tk.points ∧
      findSub (curator_accept db sid now).2 sid =
        some { s with status := Status.accepted, updated_at := now } ∧
      (curator_accept db sid now).2.users.find? (fun x => x.tg_id == s.user_id) =
        some { urow with points := urow.points + tk.points }) ∧
    (s.status ≠ Status.pending →
      curator_accept db sid now = (AcceptOutcome.alreadyResolved, db)) := by
  constructor
  · intro hpend hacc tk htk urow hurow
    have hspec := curator_accept_ok_spec db sid now s tk hf hpend hacc htk
    rw [hspec]
    exact ⟨rfl, find?_setStatus _ sid _ now s hf,
      addPoints_find? db.users s.user_id tk.points urow hurow⟩
  · intro hnp
    exact curator_accept_resolved_spec db sid now s hf hnp

def c8DB : DB :=
  ⟨[], [⟨1, "u", "g", some 1, 4⟩],
   [⟨0, 1, 5, Status.pending, "photo", "p", none, 0, 0⟩], none, 1⟩

theorem c8_curator_accept_spec_witness :
    (curator_accept c8DB 0 9).1 = AcceptOutcome.accepted 2 ∧
    (curator_accept c8DB 0 9).2.users.find? (fun x => x.tg_id == 1) =
      some ⟨1, "u", "g", some 1, 6⟩ := by
  have h := (c8_curator_accept_spec c8DB 0 9
    ⟨0, 1, 5, Status.pending, "photo", "p", none, 0, 0⟩ (by decide)).1
    rfl (by decide) ⟨5, "photo", 2⟩ (by decide) ⟨1, "u", "g", some 1, 4⟩ (by decide)
  exact ⟨h.1, h.2.2⟩

/-- A store whose only submission already reached the terminal state
`accepted`. -/
def c9DB : DB :=
  ⟨[], [], [⟨5, 1, 2, Status.accepted, "text", "x", none, 0, 0⟩], none, 6⟩

/-- C9 counterexample: the reason handler applies the rejection without
re-checking the status (main.py:1597-1603 has no status guard), so the
terminal `accepted` record is rewritten to `rejected`. -/
theorem c9_counterexample :
    findSub c9DB 5 = some ⟨5, 1, 2, Status.accepted, "text", "x", none, 0, 0⟩ ∧
    handle_curator_reject_reason c9DB 5 "late" 7 =
      some { c9DB with subs := [⟨5, 1, 2, Status.rejected, "text", "x", some "late", 0, 7⟩] } := by
  decide

/-- C9 amended: only the reject-button handler verifies the submission is
still `pending` (and refuses otherwise); the reason-application step that
actually writes the rejection mutates the record unconditionally — whatever
its status, including the terminal ones. -/
theorem c9_reject_apply (db : DB) (sid : Nat) (reason : String) (now : Nat) (s : Sub)
    (hf : findSub db sid = some s) :
    curator_reject_check db sid = (s.status == Status.pending) ∧
    ∃ db', handle_curator_reject_reason db sid reason now = some db' ∧
      findSub db' sid =
        some { s with status := Status.rejected,
                      curator_comment := some reason, updated_at := now } := by
  constructor
  · unfold curator_reject_check
    rw [hf]
  · refine ⟨{ db with subs := db.subs.map (fun x =>
        if x.id == sid then
          { x with status := Status.rejected,
                   curator_comment := some reason, updated_at := now }
        else x) }, ?_, ?_⟩
    · unfold handle_curator_reject_reason
      rw [hf]
    · exact find?_update_sub db.subs sid
        (fun x => { x with status := Status.rejected,
                           curator_comment := some reason, updated_at := now })
        (fun _ => rfl) s hf

theorem c9_reject_apply_witness :
    curator_reject_check c9DB 5 = (Status.accepted == Status.pending) ∧
    ∃ db', handle_curator_reject_reason c9DB 5 "late" 7 = some db' ∧
      findSub db' 5 = some ⟨5, 1, 2, Status.rejected, "text", "x", some "late", 0, 7⟩ :=
  c9_reject_apply c9DB 5 "late" 7 ⟨5, 1, 2, Status.accepted, "text", "x", none, 0, 0⟩
    (by decide)

/-- Curator channel lookup of `finalize_album` (main.py:1213-1216).  Both
fetched rows are indexed immediately (`(await cur2.fetchone())[0]`,
`(await cur3.fetchone())[0]`) without a None guard, so a missing user row, a
NULL `curator_idx` (the SQL comparison `idx = NULL` matches no curator row),
or a dangling `curator_idx` all raise an unhandled `TypeError`; the `none`
result stands for that raise. -/
def finalize_album_curator_tg (db : DB) (uid : Nat) : Option Nat :=
  match db.users.find? (fun u => u.tg_id == uid) with
  | none => none
  | some u =>
    match u.curator_idx with
    | none => none
    | some ci =>
      match db.curators.find? (fun c => c.idx == ci) with
      | none => none
      | some c => some c.telegram_id

/-- Curator channel lookup of `receive_answer` (main.py:1327-1332) and of
the other direct submission paths (main.py:1054-1059, 1132-1138): the user
row is still indexed unguarded (outer `none` = raise), but the curator row
is guarded — `c[0] if c else None` — so a NULL or dangling `curator_idx`
yields `some none`: no notification, no error. -/
def receive_answer_curator_tg (db : DB) (uid : Nat) : Option (Option Nat) :=
  match db.users.find? (fun u => u.tg_id == uid) with
  | none => none
  | some u =>
    match u.curator_idx with
    | none => some none
    | some ci =>
      match db.curators.find? (fun c => c.idx == ci) with
      | none => some none
      | some c => some (some c.telegram_id)

/-- C10: for a registered participant whose `curator_idx` is NULL, the album
finalization's curator lookup raises an unhandled error, while the direct
paths' guarded lookup degrades to "no notification"; and the album lookup
succeeds exactly when the participant's assigned curator exists in the
curators table. -/
theorem c10_album_lookup_unguarded (db : DB) (uid : Nat) (u : User)
    (hu : db.users.find? (fun x => x.tg_id == uid) = some u) :
    (u.curator_idx = none →
      finalize_album_curator_tg db uid = none ∧
      receive_answer_curator_tg db uid = some none) ∧
    (∀ tg, finalize_album_curator_tg db uid = some tg →
      ∃ ci c, u.curator_idx = some ci ∧
        db.curators.find? (fun x => x.idx == ci) = some c ∧ c.telegram_id = tg) ∧
    (∀ ci c, u.curator_idx = some ci →
      db.curators.find? (fun x => x.idx == ci) = some c →
      finalize_album_curator_tg db uid = some c.telegram_id) := by
  refine ⟨?_, ?_, ?_⟩
  · intro hci
    simp [finalize_album_curator_tg, receive_answer_curator_tg, hu, hci]
  · intro tg htg
    simp only [finalize_album_curator_tg, hu] at htg
    rcases hci : u.curator_idx with _ | ci
    · simp only [hci] at htg
      exact Option.noConfusion htg
    · simp only [hci] at htg
      rcases hcc : db.curators.find? (fun c => c.idx == ci) with _ | c
      · simp only [hcc] at htg
        exact Option.noConfusion htg
      · simp only [hcc] at htg
        injection htg with htg
        exact ⟨ci, c, rfl, hcc, htg⟩
  · intro ci c hci hcc
    simp only [finalize_album_curator_tg, hu, hci, hcc]

def c10DB : DB := ⟨[⟨1, "c", 100⟩], [⟨2, "u", "g", none, 0⟩], [], none, 0⟩

theorem c10_album_lookup_unguarded_witness :
    finalize_album_curator_tg c10DB 2 = none ∧
    receive_answer_curator_tg c10DB 2 = some none :=
  (c10_album_lookup_unguarded c10DB 2 ⟨2, "u", "g", none, 0⟩ (by decide)).1 rfl

/-- aiogram FSM states of one participant: no active state,
`SubmitStates.waiting_for_answer` (main.py:234-235), and the photo_text
two-step states `AnswerFSM.waiting_for_photo` / `waiting_for_text`
(main.py:238-241). -/
inductive Fsm
  | idle
  | waitingAnswer
  | waitingPhoto
  | waitingText
deriving DecidableEq, Repr

/-- One stored submission row of the modelled participant, reduced to the
two columns invariant I1 talks about. -/
structure SubRec where
  task_id : Nat
  status : Status
deriving DecidableEq, Repr

/-- Conversation state of one participant plus that participant's rows of
the submissions table.  The FSM data-dict keys are fields; `none` stands
both for an absent key and a stored Python `None` — exactly what
`data.get(...)` returns in either case.  `timers` holds the scheduled
`finalize_album` tasks (main.py:1224-1225), each capturing the `task_id`
and album `group_id` of the message that spawned it; `state.clear()`
resets the FSM state and the data keys but cancels no timer. -/
structure MState where
  fsm : Fsm
  task_id : Option Nat
  photo_id : Option String
  mgid : Option String
  collected_photos : List String
  collected_media : List String
  subs : List SubRec
  timers : List (Nat × Option String)
deriving DecidableEq, Repr

/-- Messages a participant can send: text, a photo with its optional album
`media_group_id`, or a video.  A Telegram message carries exactly one of
these payloads (`message.text` is None on media messages), which is why the
photo-and-text branch of receive_answer (main.py:1234) cannot fire on a
single message. -/
inductive Msg
  | text (s : String)
  | photo (pid : String) (g : Option String)
  | video (vid : String)
deriving DecidableEq, Repr

/-- Pending submissions of one task among the participant's rows. -/
def pendingCount (subs : List SubRec) (t : Nat) : Nat :=
  subs.countP (fun r => r.task_id == t && r.status == Status.pending)

/-- The participant's accepted-count (`user_has_accepted_count`,
main.py:355-359, restricted to the modelled participant). -/
def acceptedCount (subs : List SubRec) : Nat :=
  subs.countP (fun r => r.status == Status.accepted)

/-- `submission_accepted_for_task` on the participant's rows. -/
def hasAcceptedRec (subs : List SubRec) (t : Nat) : Bool :=
  subs.any (fun r => r.task_id == t && r.status == Status.accepted)

/-- `submission_pending_for_task` on the participant's rows. -/
def hasPendingRec (subs : List SubRec) (t : Nat) : Bool :=
  subs.any (fun r => r.task_id == t && r.status == Status.pending)

/-- Content type of a task, `task_by_id(...)["type"]`; `none` is the
`ValueError` raise of `task_by_id`. -/
def taskType? (t : Nat) : Option String :=
  (task_by_id? t).map (fun tk => tk.type)

/-- `state.clear()` (main.py:1066, 1144, 1222, 1339): FSM state and every
data key reset; scheduled timers and the stored rows survive. -/
def clearState (s : MState) : MState :=
  { s with fsm := Fsm.idle, task_id := none, photo_id := none, mgid := none,
           collected_photos := [], collected_media := [] }

/-- The common tail of every submission path: one `pending` row inserted
(main.py:1048-1052, 1124-1130, 1205-1211, 1318-1324) followed by
`state.clear()`. -/
def insertClear (s : MState) (t : Nat) : MState :=
  { clearState s with subs := s.subs ++ [⟨t, Status.pending⟩] }

/-- Eligibility gate of `on_send_answer` (main.py:986-996) specialized to
the modelled participant: accepted check, then pending check, then the
task-14 unlock check.  The earlier guards of the handler — submissions
open, registered, curator assigned (main.py:960-984) — hold throughout the
model: one registered participant with an assigned, existing curator. -/
def sendGate (subs : List SubRec) (t : Nat) : GateResult :=
  if hasAcceptedRec subs t then GateResult.alreadyAccepted
  else if hasPendingRec subs t then GateResult.reviewInProgress
  else if t == 14 && decide (acceptedCount subs < 3) then GateResult.taskLocked
  else GateResult.admitted

/-- The send-button callback `on_send_answer` (main.py:954-1025): when the
gate rejects, only an alert is shown; when it admits, `task_by_id` runs
(raising on an unknown id, before any state change) and the FSM moves to
`waiting_for_photo` for photo_text tasks, else to `waiting_for_answer`,
with `task_id` merged into the data dict — the other keys persist. -/
def clickSend (s : MState) (t : Nat) : MState :=
  match sendGate s.subs t with
  | GateResult.admitted =>
    match taskType? t with
    | none => s
    | some ty =>
      if ty == "photo_text" then { s with fsm := Fsm.waitingPhoto, task_id := some t }
      else { s with fsm := Fsm.waitingAnswer, task_id := some t }
  | _ => s

/-- `handle_photo_for_task` (main.py:1028-1032): store the photo id, move
to `waiting_for_text`. -/
def handle_photo_for_task (s : MState) (pid : String) : MState :=
  { s with photo_id := some pid, fsm := Fsm.waitingText }

/-- `handle_text_for_task` (main.py:1035-1066): `data["task_id"]` and
`data["photo_id"]` raise `KeyError` when absent (no mutation); otherwise
insert the pending photo_text row and clear. -/
def handle_text_for_task (s : MState) : MState :=
  match s.task_id, s.photo_id with
  | some t, some _ => insertClear s t
  | _, _ => s

/-- `handle_done_command` (main.py:1101-1144): `task_by_id` on the stored
task (raise on a missing key aborts the handler); refuse unless the task
type is photo_video; refuse when no media was collected; otherwise insert
the pending row and clear.  The eligibility gate is NOT re-run here. -/
def handle_done_command (s : MState) : MState :=
  match s.task_id with
  | none => s
  | some t =>
    match taskType? t with
    | none => s
    | some ty =>
      if ty != "photo_video" then s
      else if s.collected_media.isEmpty then s
      else insertClear s t

/-- The photo_video accumulation branch of `receive_answer`
(main.py:1240-1290): append the media reference; below 10 items keep
collecting; at 10, insert the (truncated) pending row and clear. -/
def pvAppend (s : MState) (t : Nat) (mid : String) : MState :=
  let prev := s.collected_media ++ [mid]
  if prev.length < 10 then { s with collected_media := prev }
  else insertClear s t

/-- `receive_answer` (main.py:1147-1339).  `task_by_id` raises for a
missing or unknown `task_id` (main.py:1152) — no mutation.  Text for a
text task, a photo for a photo task and a video for a video task insert a
pending row and clear; a photo for the photo_multi task feeds the album
collector (main.py:1176-1226): a differing `media_group_id` resets the
collection, the photo is appended, and a `finalize_album` timer capturing
(task, group) is scheduled; photo_video media go through `pvAppend`; any
other combination is rejected as a wrong content type — no mutation. -/
def receiveAnswer (s : MState) (m : Msg) : MState :=
  match s.task_id with
  | none => s
  | some t =>
    match taskType? t with
    | none => s
    | some ty =>
      match m with
      | Msg.text _ =>
        if ty == "text" then insertClear s t else s
      | Msg.photo pid g =>
        if ty == "photo" then insertClear s t
        else if ty == "photo_multi" then
          { s with mgid := g,
                   collected_photos :=
                     (if s.mgid == g then s.collected_photos else []) ++ [pid],
                   timers := s.timers ++ [(t, g)] }
        else if ty == "photo_video" then pvAppend s t ("photo:" ++ pid)
        else s
      | Msg.video vid =>
        if ty == "video" then insertClear s t
        else if ty == "photo_video" then pvAppend s t ("video:" ++ vid)
        else s

/-- One `finalize_album` task firing (main.py:1190-1225): consume the i-th
scheduled timer; when the stored `media_group_id` still equals the captured
group and photos were collected, insert one pending row for the captured
task and clear (the intermediate `update_data(collected_photos=[],
media_group_id=None)` of main.py:1202 is subsumed by the final
`state.clear()` of main.py:1222, which runs because the modelled
participant's curator lookup of main.py:1213-1216 succeeds — the model
keeps one participant with an assigned, existing curator); otherwise the
task returns without touching anything. -/
def fireTimer (s : MState) (i : Nat) : MState :=
  match s.timers.get? i with
  | none => s
  | some tg =>
    let s' := { s with timers := s.timers.eraseIdx i }
    if s.mgid == tg.2 && !s.collected_photos.isEmpty then
      { clearState s' with subs := s'.subs ++ [⟨tg.1, Status.pending⟩] }
    else s'

/-- A curator accept decision on the participant's i-th row, the status
transitions of `curator_accept` (main.py:1502-1537). -/
def decideAccept (s : MState) (i : Nat) : MState :=
  match s.subs.get? i with
  | none => s
  | some r =>
    if r.status != Status.pending then s
    else if hasAcceptedRec s.subs r.task_id then
      { s with subs := s.subs.set i { r with status := Status.duplicate } }
    else
      { s with subs := s.subs.set i { r with status := Status.accepted } }

/-- An applied reject reason on the i-th row, the unconditional UPDATE of
`handle_curator_reject_reason` (main.py:1600-1602). -/
def applyRejectReason (s : MState) (i : Nat) : MState :=
  match s.subs.get? i with
  | none => s
  | some r => { s with subs := s.subs.set i { r with status := Status.rejected } }

/-- One dispatcher reconciliation deletion (main.py:1379-1383): a pending
row whose pair already has an accepted sibling is removed. -/
def dispatchDelete (s : MState) (i : Nat) : MState :=
  match s.subs.get? i with
  | none => s
  | some r =>
    if r.status == Status.pending && hasAcceptedRec s.subs r.task_id then
      { s with subs := s.subs.eraseIdx i }
    else s

/-- Events of the participant machine. -/
inductive MEv
  | clickSend (t : Nat)
  | message (m : Msg)
  | fireTimer (i : Nat)
  | acceptDecide (i : Nat)
  | rejectApply (i : Nat)
  | dispatchDrop (i : Nat)

/-- Routing of one event, following aiogram's dispatch order: the
photo-in-waiting_for_photo and text-in-waiting_for_text handlers
(main.py:1028, 1035), then `handle_done_command` — registered before
`receive_answer` and filtered on the text `/done` (main.py:1101) — then
`receive_answer` for any message in `waiting_for_answer` (main.py:1147).
Any other message falls to the state-less catch-all
`handle_curator_reject_reason` (main.py:1589-1594), which reads the absent
`reject_submission` key and returns — no mutation for a participant. -/
def mstep (s : MState) (e : MEv) : MState :=
  match e with
  | MEv.clickSend t => clickSend s t
  | MEv.message m =>
    match s.fsm, m with
    | Fsm.waitingPhoto, Msg.photo pid _ => handle_photo_for_task s pid
    | Fsm.waitingText, Msg.text _ => handle_text_for_task s
    | Fsm.waitingAnswer, Msg.text txt =>
      if txt == "/done" then handle_done_command s
      else receiveAnswer s (Msg.text txt)
    | Fsm.waitingAnswer, m => receiveAnswer s m
    | _, _ => s
  | MEv.fireTimer i => fireTimer s i
  | MEv.acceptDecide i => decideAccept s i
  | MEv.rejectApply i => applyRejectReason s i
  | MEv.dispatchDrop i => dispatchDelete s i

/-- The participant machine's initial state: fresh registration, no
submissions, no conversation state, no timers. -/
def minit : MState := ⟨Fsm.idle, none, none, none, [], [], [], []⟩

/-- A run of the participant machine. -/
def mrun (s : MState) (evs : List MEv) : MState :=
  evs.foldl mstep s

/-- The photo_multi content kind names exactly task 7 of the catalog. -/
theorem taskType?_multi (t : Nat) (h : taskType? t = some "photo_multi") : t = 7 := by
  unfold taskType? task_by_id? at h
  rcases hf : TASKS.find? (fun tk => tk.id == t) with _ | tk
  · rw [hf] at h; cases h
  · rw [hf] at h
    simp only [Option.map_some'] at h
    have hid0 := List.find?_some hf
    have hid : (tk.id == t) = true := by simpa using hid0
    have hmem : tk ∈ TASKS := List.mem_of_find?_eq_some hf
    have hall : ∀ x ∈ TASKS, x.type = "photo_multi" → x.id = 7 := by decide
    have htt : tk.type = "photo_multi" := by injection h
    have h7 := hall tk hmem htt
    have := beq_iff_eq.mp hid
    omega

theorem countP_set_le {α : Type} (p : α → Bool) (l : List α) (i : Nat) (x : α)
    (hx : p x = false) : (l.set i x).countP p ≤ l.countP p := by
  induction l generalizing i with
  | nil => simp
  | cons a t ih =>
    cases i with
    | zero =>
      rw [List.set_cons_zero, List.countP_cons, List.countP_cons, hx]
      simp only [Bool.false_eq_true, if_false]
      split <;> omega
    | succ n =>
      rw [List.set_cons_succ, List.countP_cons, List.countP_cons]
      have := ih n
      omega

theorem pendingCount_insert (subs : List SubRec) (t t' : Nat) :
    pendingCount (subs ++ [⟨t, Status.pending⟩]) t' =
      pendingCount subs t' + (if t = t' then 1 else 0) := by
  unfold pendingCount
  rw [List.countP_append]
  by_cases h : t = t' <;> simp [List.countP_cons, h]

theorem hasPendingRec_false_iff (subs : List SubRec) (t : Nat) :
    hasPendingRec subs t = false ↔ pendingCount subs t = 0 := by
  rw [pendingCount, List.countP_eq_zero, ← Bool.not_eq_true, hasPendingRec,
    List.any_eq_true]
  simp

theorem sendGate_admitted (subs : List SubRec) (t : Nat)
    (h : sendGate subs t = GateResult.admitted) : hasPendingRec subs t = false := by
  unfold sendGate at h
  by_cases h1 : hasAcceptedRec subs t = true
  · rw [if_pos h1] at h; cases h
  · rw [if_neg h1] at h
    by_cases h2 : hasPendingRec subs t = true
    · rw [if_pos h2] at h; cases h
    · simpa using h2

/-- Inductive invariant of the participant machine.  `one_pending` is
invariant I1 itself; the remaining fields record what entering each FSM
state guarantees (the gate passed for the stored task), that timers are
only ever scheduled by the album branch, and that a non-empty album buffer
certifies the photo_multi task has no pending row. -/
structure MInv (s : MState) : Prop where
  one_pending : ∀ t, pendingCount s.subs t ≤ 1
  waiting_answer : s.fsm = Fsm.waitingAnswer →
    ∃ t, s.task_id = some t ∧ pendingCount s.subs t = 0
  waiting_pt : s.fsm = Fsm.waitingPhoto ∨ s.fsm = Fsm.waitingText →
    ∃ t, s.task_id = some t ∧ taskType? t = some "photo_text" ∧
      pendingCount s.subs t = 0
  timers_multi : ∀ tg ∈ s.timers, taskType? tg.1 = some "photo_multi"
  photos_free : s.collected_photos ≠ [] → pendingCount s.subs 7 = 0

theorem minv_insertClear (s : MState) (t : Nat) (h : MInv s)
    (h0 : pendingCount s.subs t = 0) : MInv (insertClear s t) := by
  refine ⟨?_, ?_, ?_, ?_, ?_⟩
  · intro t'
    show pendingCount (s.subs ++ [⟨t, Status.pending⟩]) t' ≤ 1
    rw [pendingCount_insert]
    by_cases hted : t = t'
    · subst hted; rw [if_pos rfl]; omega
    · rw [if_neg hted]; have := h.one_pending t'; omega
  · intro hfsm; simp [insertClear, clearState] at hfsm
  · intro hfsm; simp [insertClear, clearState] at hfsm
  · exact h.timers_multi
  · intro hne; simp [insertClear, clearState] at hne

theorem minv_of_subs_le (s : MState) (subs' : List SubRec) (h : MInv s)
    (hle : ∀ t, pendingCount subs' t ≤ pendingCount s.subs t) :
    MInv { s with subs := subs' } := by
  refine ⟨?_, ?_, ?_, ?_, ?_⟩
  · intro t
    show pendingCount subs' t ≤ 1
    exact le_trans (hle t) (h.one_pending t)
  · intro hfsm
    obtain ⟨t, h1, h2⟩ := h.waiting_answer hfsm
    refine ⟨t, h1, ?_⟩
    show pendingCount subs' t = 0
    have := hle t
    omega
  · intro hfsm
    obtain ⟨t, h1, h3, h2⟩ := h.waiting_pt hfsm
    refine ⟨t, h1, h3, ?_⟩
    show pendingCount subs' t = 0
    have := hle t
    omega
  · exact h.timers_multi
  · intro hne
    show pendingCount subs' 7 = 0
    have := hle 7
    have := h.photos_free hne
    omega

theorem minv_decideAccept (s : MState) (i : Nat) (h : MInv s) : MInv (decideAccept s i) := by
  unfold decideAccept
  rcases hg : s.subs.get? i with _ | r
  · simp only [hg]; exact h
  · simp only [hg]
    by_cases hst : (r.status != Status.pending) = true
    · rw [if_pos hst]; exact h
    · rw [if_neg hst]
      by_cases hacc : hasAcceptedRec s.subs r.task_id = true
      · rw [if_pos hacc]
        exact minv_of_subs_le s _ h (fun t => countP_set_le _ _ i _ (by simp))
      · rw [if_neg hacc]
        exact minv_of_subs_le s _ h (fun t => countP_set_le _ _ i _ (by simp))

theorem minv_rejectApply (s : MState) (i : Nat) (h : MInv s) :
    MInv (applyRejectReason s i) := by
  unfold applyRejectReason
  rcases hg : s.subs.get? i with _ | r
  · simp only [hg]; exact h
  · simp only [hg]
    exact minv_of_subs_le s _ h (fun t => countP_set_le _ _ i _ (by simp))

theorem minv_dispatchDelete (s : MState) (i : Nat) (h : MInv s) :
    MInv (dispatchDelete s i) := by
  unfold dispatchDelete
  rcases hg : s.subs.get? i with _ | r
  · simp only [hg]; exact h
  · simp only [hg]
    by_cases hc : (r.status == Status.pending && hasAcceptedRec s.subs r.task_id) = true
    · rw [if_pos hc]
      exact minv_of_subs_le s _ h
        (fun t => (List.eraseIdx_sublist _ _).countP_le _)
    · rw [if_neg hc]; exact h

theorem minv_fireTimer (s : MState) (i : Nat) (h : MInv s) : MInv (fireTimer s i) := by
  unfold fireTimer
  rcases hg : s.timers.get? i with _ | tg
  · simp only [hg]; exact h
  · simp only [hg]
    by_cases hc : (s.mgid == tg.2 && !s.collected_photos.isEmpty) = true
    · rw [if_pos hc]
      have hmem : tg ∈ s.timers := List.get?_mem hg
      have ht7 : tg.1 = 7 := taskType?_multi _ (h.timers_multi tg hmem)
      have hphotos : s.collected_photos ≠ [] := by
        have h2 := (Bool.and_eq_true _ _).mp hc
        intro hnil
        rw [hnil] at h2
        simp at h2
      have h0 : pendingCount s.subs 7 = 0 := h.photos_free hphotos
      refine ⟨?_, ?_, ?_, ?_, ?_⟩
      · intro t'
        show pendingCount (s.subs ++ [⟨tg.1, Status.pending⟩]) t' ≤ 1
        rw [pendingCount_insert]
        by_cases h7 : t' = 7
        · subst h7
          rw [h0]
          split <;> omega
        · rw [if_neg (by omega)]
          have := h.one_pending t'
          omega
      · intro hfsm; simp [clearState] at hfsm
      · intro hfsm; simp [clearState] at hfsm
      · intro tg' hmem'
        exact h.timers_multi tg' ((List.eraseIdx_sublist _ _).subset hmem')
      · intro hne; simp [clearState] at hne
    · rw [if_neg hc]
      refine ⟨h.one_pending, h.waiting_answer, h.waiting_pt, ?_, h.photos_free⟩
      intro tg' hmem'
      exact h.timers_multi tg' ((List.eraseIdx_sublist _ _).subset hmem')

theorem minv_clickSend (s : MState) (t : Nat) (h : MInv s) : MInv (clickSend s t) := by
  unfold clickSend
  rcases hg : sendGate s.subs t with _ | _ | _ | _
  · simp only [hg]; exact h
  · simp only [hg]; exact h
  · simp only [hg]; exact h
  · simp only [hg]
    rcases hty : taskType? t with _ | ty
    · simp only [hty]; exact h
    · simp only [hty]
      have hp0 : pendingCount s.subs t = 0 :=
        (hasPendingRec_false_iff s.subs t).mp (sendGate_admitted s.subs t hg)
      by_cases hpt : (ty == "photo_text") = true
      · rw [if_pos hpt]
        refine ⟨h.one_pending, ?_, ?_, h.timers_multi, h.photos_free⟩
        · intro hfsm; simp at hfsm
        · intro _
          refine ⟨t, rfl, ?_, hp0⟩
          rw [hty]
          exact congrArg some (beq_iff_eq.mp hpt)
      · rw [if_neg hpt]
        refine ⟨h.one_pending, ?_, ?_, h.timers_multi, h.photos_free⟩
        · intro _; exact ⟨t, rfl, hp0⟩
        · intro hfsm; rcases hfsm with hf | hf <;> simp at hf

theorem minv_handle_photo (s : MState) (pid : String) (h : MInv s)
    (hfsm : s.fsm = Fsm.waitingPhoto) : MInv (handle_photo_for_task s pid) := by
  refine ⟨h.one_pending, ?_, ?_, h.timers_multi, h.photos_free⟩
  · intro hf; simp [handle_photo_for_task] at hf
  · intro _
    exact h.waiting_pt (Or.inl hfsm)

theorem minv_handle_text (s : MState) (h : MInv s)
    (hfsm : s.fsm = Fsm.waitingText) : MInv (handle_text_for_task s) := by
  unfold handle_text_for_task
  rcases ht : s.task_id with _ | t
  · simp only [ht]; exact h
  · rcases hp : s.photo_id with _ | pid
    · simp only [ht, hp]; exact h
    · simp only [ht, hp]
      obtain ⟨t0, ht0, _, hp0⟩ := h.waiting_pt (Or.inr hfsm)
      rw [ht] at ht0
      injection ht0 with he
      subst he
      exact minv_insertClear s t h hp0

theorem minv_handle_done (s : MState) (h : MInv s)
    (hfsm : s.fsm = Fsm.waitingAnswer) : MInv (handle_done_command s) := by
  unfold handle_done_command
  rcases ht : s.task_id with _ | t
  · simp only [ht]; exact h
  · simp only [ht]
    rcases hty : taskType? t with _ | ty
    · simp only [hty]; exact h
    · simp only [hty]
      by_cases h1 : (ty != "photo_video") = true
      · rw [if_pos h1]; exact h
      · rw [if_neg h1]
        by_cases h2 : s.collected_media.isEmpty = true
        · rw [if_pos h2]; exact h
        · rw [if_neg h2]
          obtain ⟨t0, ht0, hp0⟩ := h.waiting_answer hfsm
          rw [ht] at ht0
          injection ht0 with he
          subst he
          exact minv_insertClear s t h hp0

theorem minv_receiveAnswer (s : MState) (m : Msg) (h : MInv s)
    (hfsm : s.fsm = Fsm.waitingAnswer) : MInv (receiveAnswer s m) := by
  rcases m with txt | ⟨pid, g⟩ | vid <;>
    unfold receiveAnswer <;>
      rcases ht : s.task_id with _ | t
  · simp only [ht]; exact h
  · simp only [ht]
    rcases hty : taskType? t with _ | ty
    · simp only [hty]; exact h
    · simp only [hty]
      obtain ⟨t0, ht0, hp0⟩ := h.waiting_answer hfsm
      rw [ht] at ht0
      injection ht0 with he
      subst he
      by_cases hc : (ty == "text") = true
      · rw [if_pos hc]; exact minv_insertClear s t h hp0
      · rw [if_neg hc]; exact h
  · simp only [ht]; exact h
  · simp only [ht]
    rcases hty : taskType? t with _ | ty
    · simp only [hty]; exact h
    · simp only [hty]
      obtain ⟨t0, ht0, hp0⟩ := h.waiting_answer hfsm
      rw [ht] at ht0
      injection ht0 with he
      subst he
      by_cases hc : (ty == "photo") = true
      · rw [if_pos hc]; exact minv_insertClear s t h hp0
      · rw [if_neg hc]
        by_cases hm : (ty == "photo_multi") = true
        · rw [if_pos hm]
          have hty7 : taskType? t = some "photo_multi" := by
            rw [hty]
            exact congrArg some (beq_iff_eq.mp hm)
          have ht7 : t = 7 := taskType?_multi t hty7
          refine ⟨h.one_pending, ?_, ?_, ?_, ?_⟩
          · intro _; exact ⟨t, rfl, hp0⟩
          · intro hor
            rcases hor with hf | hf <;> (rw [hfsm] at hf; cases hf)
          · intro tg hmem
            rcases List.mem_append.mp hmem with h1 | h1
            · exact h.timers_multi tg h1
            · simp only [List.mem_singleton] at h1
              subst h1
              exact hty7
          · intro _
            show pendingCount s.subs 7 = 0
            rw [← ht7]
            exact hp0
        · rw [if_neg hm]
          by_cases hv : (ty == "photo_video") = true
          · rw [if_pos hv]
            simp only [pvAppend]
            by_cases hlen : (s.collected_media ++ ["photo:" ++ pid]).length < 10
            · rw [if_pos hlen]
              exact ⟨h.one_pending, h.waiting_answer, h.waiting_pt,
                h.timers_multi, h.photos_free⟩
            · rw [if_neg hlen]
              exact minv_insertClear s t h hp0
          · rw [if_neg hv]; exact h
  · simp only [ht]; exact h
  · simp only [ht]
    rcases hty : taskType? t with _ | ty
    · simp only [hty]; exact h
    · simp only [hty]
      obtain ⟨t0, ht0, hp0⟩ := h.waiting_answer hfsm
      rw [ht] at ht0
      injection ht0 with he
      subst he
      by_cases hc : (ty == "video") = true
      · rw [if_pos hc]; exact minv_insertClear s t h hp0
      · rw [if_neg hc]
        by_cases hv : (ty == "photo_video") = true
        · rw [if_pos hv]
          simp only [pvAppend]
          by_cases hlen : (s.collected_media ++ ["video:" ++ vid]).length < 10
          · rw [if_pos hlen]
            exact ⟨h.one_pending, h.waiting_answer, h.waiting_pt,
              h.timers_multi, h.photos_free⟩
          · rw [if_neg hlen]
            exact minv_insertClear s t h hp0
        · rw [if_neg hv]; exact h

theorem minv_mstep (s : MState) (e : MEv) (h : MInv s) : MInv (mstep s e) := by
  match e with
  | MEv.clickSend t => exact minv_clickSend s t h
  | MEv.fireTimer i => exact minv_fireTimer s i h
  | MEv.acceptDecide i => exact minv_decideAccept s i h
  | MEv.rejectApply i => exact minv_rejectApply s i h
  | MEv.dispatchDrop i => exact minv_dispatchDelete s i h
  | MEv.message m =>
    show MInv (mstep s (MEv.message m))
    unfold mstep
    rcases hf : s.fsm with _ | _ | _ | _ <;> rcases m with txt | ⟨pid, g⟩ | vid <;>
      simp only [hf]
    · exact h
    · exact h
    · exact h
    · by_cases hd : (txt == "/done") = true
      · rw [if_pos hd]; exact minv_handle_done s h hf
      · rw [if_neg hd]; exact minv_receiveAnswer s (Msg.text txt) h hf
    · exact minv_receiveAnswer s (Msg.photo pid g) h hf
    · exact minv_receiveAnswer s (Msg.video vid) h hf
    · exact h
    · exact minv_handle_photo s pid h hf
    · exact h
    · exact minv_handle_text s h hf
    · exact h
    · exact h

theorem minv_minit : MInv minit := by
  refine ⟨?_, ?_, ?_, ?_, ?_⟩
  · intro t; simp [pendingCount, minit]
  · intro hfsm; simp [minit] at hfsm
  · intro hfsm; rcases hfsm with hf | hf <;> simp [minit] at hf
  · intro tg hmem; simp [minit] at hmem
  · intro hne; simp [minit] at hne

theorem minv_mrun (evs : List MEv) : MInv (mrun minit evs) := by
  suffices hgen : ∀ s, MInv s → MInv (mrun s evs) from hgen minit minv_minit
  induction evs with
  | nil => exact fun s hs => hs
  | cons e evs ih => exact fun s hs => ih (mstep s e) (minv_mstep s e hs)

/-- C3: invariant I1 — over every reachable state of the participant
machine (send-button clicks, messages through the direct, photo_text,
album and photo_video `/done` paths, album-finalize timer firings, and the
curator-side status transitions), at most one submission per (participant,
task) pair is `pending` at any instant. -/
theorem c3_single_pending (evs : List MEv) (t : Nat) :
    pendingCount (mrun minit evs).subs t ≤ 1 :=
  (minv_mrun evs).one_pending t

/-- A conversation state in which the participant is mid-collection for the
photo_video task 14 while the pair (participant, 14) already reached
`accepted` — the interleaving the specification's section 4.2 warns about
("state can change between fragments, e.g. a concurrent acceptance"). -/
def c4State : MState :=
  ⟨Fsm.waitingAnswer, some 14, none, none, [], ["photo:x"],
   [⟨14, Status.accepted⟩], []⟩

/-- C4 counterexample: at finalize time the gate would reject the pair
(`AlreadyAccepted`), yet `/done` writes a new `pending` submission anyway —
`handle_done_command` (main.py:1101-1144) checks only the task type and the
non-empty buffer, never the section-4.2 gate. -/
theorem c4_counterexample :
    hasAcceptedRec c4State.subs 14 = true ∧
    sendGate c4State.subs 14 = GateResult.alreadyAccepted ∧
    mstep c4State (MEv.message (Msg.text "/done")) =
      { c4State with fsm := Fsm.idle, task_id := none, collected_media := [],
                     subs := [⟨14, Status.accepted⟩, ⟨14, Status.pending⟩] } := by
  decide

/-- C4 amended: finalizing a multi-part session does NOT re-evaluate the
section-4.2 eligibility gate.  The `/done` finalization re-checks only that
the task is photo_video and the buffer is non-empty, and then always writes
the `pending` row — whatever the pair's accepted/pending state; the album
idle-finalize likewise re-checks only that its captured group key is still
current and photos remain, and then always writes the `pending` row. -/
theorem c4_finalize_no_regate (s : MState) (t : Nat) (i : Nat) (tg : Nat × Option String)
    (hfsm : s.fsm = Fsm.waitingAnswer)
    (ht : s.task_id = some t) (hty : taskType? t = some "photo_video")
    (hne : s.collected_media ≠ []) :
    mstep s (MEv.message (Msg.text "/done")) = insertClear s t ∧
    (s.timers.get? i = some tg → s.mgid = tg.2 → s.collected_photos ≠ [] →
      fireTimer s i =
        { clearState { s with timers := s.timers.eraseIdx i } with
          subs := s.subs ++ [⟨tg.1, Status.pending⟩] }) := by
  constructor
  · unfold mstep
    rw [hfsm]
    show (if ("/done" == "/done") = true then handle_done_command s
          else receiveAnswer s (Msg.text "/done")) = insertClear s t
    rw [if_pos (by decide)]
    unfold handle_done_command
    simp only [ht, hty]
    rw [if_neg (by decide), if_neg (by simp [List.isEmpty_iff, hne])]
  · intro hget hm hph
    unfold fireTimer
    simp only [hget]
    rw [if_pos]
    rw [Bool.and_eq_true]
    constructor
    · exact beq_iff_eq.mpr hm
    · simp [List.isEmpty_iff, hph]

def c4Timers : MState :=
  ⟨Fsm.waitingAnswer, some 14, none, some "g", ["p1"], ["photo:x"],
   [⟨14, Status.accepted⟩], [(7, some "g")]⟩

theorem c4_finalize_no_regate_witness :
    mstep c4Timers (MEv.message (Msg.text "/done")) = insertClear c4Timers 14 ∧
    (c4Timers.timers.get? 0 = some (7, some "g") → c4Timers.mgid = some "g" →
      c4Timers.collected_photos ≠ [] →
      fireTimer c4Timers 0 =
        { clearState { c4Timers with timers := c4Timers.timers.eraseIdx 0 } with
          subs := c4Timers.subs ++ [⟨7, Status.pending⟩] }) :=
  c4_finalize_no_regate c4Timers 14 0 (7, some "g") rfl rfl (by decide) (by decide)

/-- The `idx` stored at a position of the ordered curator list (0 when out
of range — never hit in the lemmas below). -/
def idxAt (cs : List Curator) (q : Nat) : Nat :=
  (cs.map (fun c => c.idx)).getD q 0

theorem idxAt_get? (cs : List Curator) (p : Nat) (c : Curator)
    (hg : cs.get? p = some c) : idxAt cs p = c.idx := by
  induction cs generalizing p with
  | nil => cases hg
  | cons a t ih =>
    cases p with
    | zero =>
      injection hg with hg
      subst hg
      rfl
    | succ n => exact ih n hg

theorem find?_idx_get? (cs : List Curator) (p : Nat) (c : Curator)
    (hg : cs.get? p = some c)
    (hN : (cs.map (fun x => x.idx)).Nodup) :
    cs.find? (fun r => r.idx == c.idx) = some c := by
  induction cs generalizing p with
  | nil => cases hg
  | cons a t ih =>
    rw [List.map_cons] at hN
    have hnc := List.nodup_cons.mp hN
    cases p with
    | zero =>
      injection hg with hg
      subst hg
      exact find?_cons_pos _ _ _ (by simp)
    | succ n =>
      have hmem : c ∈ t := List.get?_mem hg
      have hne : (a.idx == c.idx) = false :=
        beq_eq_false_iff_ne.mpr (fun heq =>
          hnc.1 (heq ▸ List.mem_map_of_mem (fun x => x.idx) hmem))
      rw [find?_cons_neg (fun r => r.idx == c.idx) a t hne]
      exact ih n hg hnc.2

theorem indexOf_idx_get? (cs : List Curator) (p : Nat) (c : Curator)
    (hg : cs.get? p = some c)
    (hN : (cs.map (fun x => x.idx)).Nodup) :
    (cs.map (fun x => x.idx)).indexOf c.idx = p := by
  induction cs generalizing p with
  | nil => cases hg
  | cons a t ih =>
    rw [List.map_cons] at hN
    have hnc := List.nodup_cons.mp hN
    cases p with
    | zero =>
      injection hg with hg
      subst hg
      rw [List.map_cons]
      exact List.indexOf_cons_self _ _
    | succ n =>
      have hmem : c ∈ t := List.get?_mem hg
      have hne : a.idx ≠ c.idx := fun heq =>
        hnc.1 (heq ▸ List.mem_map_of_mem (fun x => x.idx) hmem)
      rw [List.map_cons, List.indexOf_cons_ne _ (by simpa using hne), ih n hg hnc.2]

/-- One scheduler draw with a well-formed cursor: the curator at the
cursor's position is returned and the cursor advances one ring position. -/
theorem get_next_curator_step (db : DB) (p : Nat) (c : Curator)
    (hg : db.curators.get? p = some c)
    (hN : (db.curators.map (fun x => x.idx)).Nodup)
    (hcur : db.next_curator_idx = some c.idx) :
    get_next_curator db =
      (some c,
       { db with
         next_curator_idx := some (idxAt db.curators ((p + 1) % db.curators.length)) }) := by
  obtain ⟨c0, rest, hcs⟩ : ∃ c0 rest, db.curators = c0 :: rest := by
    cases hc : db.curators with
    | nil => rw [hc] at hg; cases hg
    | cons c0 rest => exact ⟨c0, rest, rfl⟩
  have hfind : (c0 :: rest).find? (fun r => r.idx == c.idx) = some c :=
    find?_idx_get? (c0 :: rest) p c (hcs ▸ hg) (hcs ▸ hN)
  have hidx : ((c0 :: rest).map (fun x => x.idx)).indexOf c.idx = p :=
    indexOf_idx_get? (c0 :: rest) p c (hcs ▸ hg) (hcs ▸ hN)
  unfold get_next_curator
  simp only [hcur, hcs, hfind, hidx]
  simp only [idxAt, List.length_map]

/-- Registering a batch with a well-formed cursor at position `p` appends
one user per entry, assigned in ring order from `p`; curators are never
touched. -/
theorem run_assigns (ps : List (Nat × String × String)) :
    ∀ (db : DB) (p : Nat) (c : Curator), db.curators.get? p = some c →
    (db.curators.map (fun x => x.idx)).Nodup →
    db.next_curator_idx = some c.idx →
    ∃ newUsers : List User,
      (process_group_many db ps).users = db.users ++ newUsers ∧
      (process_group_many db ps).curators = db.curators ∧
      newUsers.map (fun u => u.curator_idx) =
        (List.range ps.length).map
          (fun i => some (idxAt db.curators ((p + i) % db.curators.length))) := by
  induction ps with
  | nil =>
    intro db p c _ _ _
    exact ⟨[], by simp [process_group_many], rfl, by simp⟩
  | cons q ps ih =>
    intro db p c hg hN hcur
    have hp : p < db.curators.length := by
      by_contra hc
      rw [List.get?_eq_none.mpr (by omega)] at hg
      cases hg
    have hK : 0 < db.curators.length := by omega
    have hstep := get_next_curator_step db p c hg hN hcur
    have hpg : process_group db q.1 q.2.1 q.2.2 =
        { db with
          users := db.users ++ [⟨q.1, q.2.1, q.2.2, some c.idx, 0⟩],
          next_curator_idx := some (idxAt db.curators ((p + 1) % db.curators.length)) } := by
      unfold process_group
      rw [hstep]
      rfl
    have hpm : process_group_many db (q :: ps) =
        process_group_many (process_group db q.1 q.2.1 q.2.2) ps := rfl
    rw [hpm, hpg]
    set db1 : DB :=
      { db with
        users := db.users ++ [⟨q.1, q.2.1, q.2.2, some c.idx, 0⟩],
        next_curator_idx := some (idxAt db.curators ((p + 1) % db.curators.length)) } with hdb1
    have hp1 : (p + 1) % db.curators.length < db.curators.length :=
      Nat.mod_lt _ hK
    obtain ⟨c1, hg1⟩ : ∃ c1, db1.curators.get? ((p + 1) % db.curators.length) = some c1 := by
      rcases h1 : db1.curators.get? ((p + 1) % db.curators.length) with _ | c1
      · rw [List.get?_eq_none] at h1
        exact absurd h1 (by push_neg; exact hp1)
      · exact ⟨c1, rfl⟩
    have hcur1 : db1.next_curator_idx = some c1.idx := by
      show some (idxAt db.curators ((p + 1) % db.curators.length)) = some c1.idx
      rw [idxAt_get? _ _ _ hg1]
    obtain ⟨newUsers, hu, hc2, hmap⟩ := ih db1 ((p + 1) % db.curators.length) c1 hg1 hN hcur1
    refine ⟨⟨q.1, q.2.1, q.2.2, some c.idx, 0⟩ :: newUsers, ?_, hc2, ?_⟩
    · rw [hu]
      show db.users ++ [⟨q.1, q.2.1, q.2.2, some c.idx, 0⟩] ++ newUsers = _
      rw [List.append_assoc]
      rfl
    · show some c.idx :: newUsers.map (fun u => u.curator_idx) = _
      have hlen : (q :: ps).length = ps.length + 1 := rfl
      rw [hlen, List.range_succ_eq_map, List.map_cons, List.map_map, hmap]
      congr 1
      · rw [Nat.add_zero, Nat.mod_eq_of_lt hp, idxAt_get? _ _ _ hg]
      · apply List.map_congr_left
        intro i _
        show some (idxAt db.curators (((p + 1) % db.curators.length + i) % db.curators.length)) = _
        rw [Nat.mod_add_mod]
        have harith : p + 1 + i = p + Nat.succ i := by omega
        rw [harith]
        rfl

theorem count_mod_block (K p0 q : Nat) (hq : q < K) :
    ((List.range K).map (fun j => (p0 + j) % K)).count q = 1 := by
  have hK : 0 < K := by omega
  have hperm : ((List.range K).map (fun j => (p0 + j) % K)).Perm (List.range K) := by
    apply List.Subperm.perm_of_length_le
    · apply List.Nodup.subperm
      · refine List.Nodup.map_on ?_ (List.nodup_range K)
        intro x hx y hy hxy
        rw [List.mem_range] at hx hy
        have hmx : x ≡ y [MOD K] := Nat.ModEq.add_left_cancel' p0 hxy
        unfold Nat.ModEq at hmx
        rw [Nat.mod_eq_of_lt hx, Nat.mod_eq_of_lt hy] at hmx
        exact hmx
      · intro x hx
        obtain ⟨j, _, hj2⟩ := List.mem_map.mp hx
        rw [← hj2]
        exact List.mem_range.mpr (Nat.mod_lt _ hK)
    · simp
  rw [hperm.count_eq]
  exact List.count_eq_one_of_mem (List.nodup_range K) (List.mem_range.mpr hq)

theorem count_mod_shift (M K p0 q : Nat) (hq : q < K) :
    ((List.range (M * K)).map (fun i => (p0 + i) % K)).count q = M := by
  induction M with
  | zero => simp
  | succ m ihm =>
    have hmk : (m + 1) * K = m * K + K := by ring
    rw [hmk, List.range_add, List.map_append, List.count_append, ihm]
    have hmap : ((List.range K).map (m * K + ·)).map (fun i => (p0 + i) % K) =
        (List.range K).map (fun j => (p0 + j) % K) := by
      rw [List.map_map]
      apply List.map_congr_left
      intro j _
      show (p0 + (m * K + j)) % K = (p0 + j) % K
      have harith : p0 + (m * K + j) = p0 + j + m * K := by ring
      rw [harith, Nat.add_mul_mod_self_right]
    rw [hmap, count_mod_block K p0 q hq]

theorem idxAt_inj (cs : List Curator) (hN : (cs.map (fun x => x.idx)).Nodup)
    (m q : Nat) (hm : m < cs.length) (c : Curator) (hgq : cs.get? q = some c)
    (he : idxAt cs m = c.idx) : m = q := by
  induction cs generalizing m q with
  | nil => cases hgq
  | cons a t ih =>
    rw [List.map_cons] at hN
    have hnc := List.nodup_cons.mp hN
    cases m with
    | zero =>
      cases q with
      | zero => rfl
      | succ n =>
        exfalso
        have hmem : c ∈ t := List.get?_mem hgq
        have hae : a.idx = c.idx := he
        exact hnc.1 (hae ▸ List.mem_map_of_mem (fun x => x.idx) hmem)
    | succ m' =>
      have hm' : m' < t.length := by simpa using hm
      cases q with
      | zero =>
        exfalso
        injection hgq with hgq
        have he' : idxAt t m' = a.idx := by rw [hgq]; exact he
        have hmem : idxAt t m' ∈ t.map (fun x => x.idx) := by
          unfold idxAt
          rw [List.getD_eq_get _ _ (by simpa using hm')]
          exact List.get_mem _ _ _
        rw [he'] at hmem
        exact hnc.1 hmem
      | succ n =>
        have := ih hnc.2 m' n hm' hgq he
        omega

theorem mem_get?_exists (cs : List Curator) (c : Curator) (hmem : c ∈ cs) :
    ∃ q, cs.get? q = some c := by
  induction cs with
  | nil => cases hmem
  | cons a t ih =>
    rcases List.mem_cons.mp hmem with rfl | h2
    · exact ⟨0, rfl⟩
    · obtain ⟨q, hq⟩ := ih h2
      exact ⟨q + 1, hq⟩

/-- C6: registering M·K participants against K curators with a well-formed
cursor (pointing at position p0) and no removals appends the new users
assigned in ring order starting at p0, and gives every curator exactly M
of them. -/
theorem c6_round_robin (db : DB) (ps : List (Nat × String × String)) (M p0 : Nat)
    (c0 : Curator) (hg0 : db.curators.get? p0 = some c0)
    (hN : (db.curators.map (fun x => x.idx)).Nodup)
    (hcur : db.next_curator_idx = some c0.idx)
    (hlen : ps.length = M * db.curators.length) :
    ∃ newUsers : List User,
      (process_group_many db ps).users = db.users ++ newUsers ∧
      newUsers.map (fun u => u.curator_idx) =
        (List.range ps.length).map
          (fun i => some (idxAt db.curators ((p0 + i) % db.curators.length))) ∧
      ∀ c ∈ db.curators,
        (newUsers.filter (fun u => u.curator_idx == some c.idx)).length = M := by
  obtain ⟨newUsers, hu, _, hmap⟩ := run_assigns ps db p0 c0 hg0 hN hcur
  refine ⟨newUsers, hu, hmap, ?_⟩
  intro c hcmem
  obtain ⟨q, hgq⟩ := mem_get?_exists db.curators c hcmem
  have hq : q < db.curators.length := by
    by_contra hcq
    rw [List.get?_eq_none.mpr (by omega)] at hgq
    cases hgq
  have hK : 0 < db.curators.length := by omega
  rw [← List.countP_eq_length_filter]
  have h1 : newUsers.countP (fun u => u.curator_idx == some c.idx) =
      (newUsers.map (fun u => u.curator_idx)).countP (fun o => o == some c.idx) := by
    rw [List.countP_map]
    rfl
  rw [h1, hmap, List.countP_map]
  have h2 : ((fun o => o == some c.idx) ∘
      (fun i => some (idxAt db.curators ((p0 + i) % db.curators.length)))) =
      (fun i => ((p0 + i) % db.curators.length) == q) := by
    funext i
    show (some (idxAt db.curators ((p0 + i) % db.curators.length)) == some c.idx) = _
    by_cases hrq : (p0 + i) % db.curators.length = q
    · rw [hrq, idxAt_get? _ _ _ hgq]
      simp
    · have hne : idxAt db.curators ((p0 + i) % db.curators.length) ≠ c.idx := by
        intro he
        exact hrq (idxAt_inj db.curators hN _ q (Nat.mod_lt _ hK) c hgq he)
      rw [beq_eq_false_iff_ne.mpr (by simpa using hne),
          beq_eq_false_iff_ne.mpr hrq]
  rw [h2]
  have h3 : (List.range ps.length).countP (fun i => ((p0 + i) % db.curators.length) == q) =
      ((List.range ps.length).map (fun i => (p0 + i) % db.curators.length)).count q := by
    rw [List.count, List.countP_map]
    rfl
  rw [h3, hlen]
  exact count_mod_shift M db.curators.length p0 q hq

def c6DB : DB :=
  ⟨[⟨1, "a", 101⟩, ⟨2, "b", 102⟩], [], [], some 2, 0⟩

def c6Ps : List (Nat × String × String) :=
  [(11, "u1", "g"), (12, "u2", "g"), (13, "u3", "g"), (14, "u4", "g")]

theorem c6_round_robin_witness :
    ∃ newUsers : List User,
      (process_group_many c6DB c6Ps).users = c6DB.users ++ newUsers ∧
      newUsers.map (fun u => u.curator_idx) =
        (List.range c6Ps.length).map
          (fun i => some (idxAt c6DB.curators ((1 + i) % c6DB.curators.length))) ∧
      ∀ c ∈ c6DB.curators,
        (newUsers.filter (fun u => u.curator_idx == some c.idx)).length = 2 :=
  c6_round_robin c6DB c6Ps 2 1 ⟨2, "b", 102⟩ (by decide) (by decide) (by decide) (by decide)

end SG
